import Mathlib

/-!
Shallow embedding of the deadline-reminder core of `src/GitHub.py`
(classes `Config`, `GlobalDeadlineManager`, `UserDeadlineManager` and the
tick wiring in `StudentBot.run`).

Modelling conventions:
* Python `datetime` values are modelled as integer seconds; a parsed
  `DD.MM.YYYY` date is the midnight of that calendar day, i.e. its
  proleptic-Gregorian ordinal (as in `datetime.date.toordinal`) times 86400.
  Only differences of such values enter the code, so the epoch choice is
  irrelevant.
* The float expression `(dt - now).total_seconds() / 3600` is modelled
  exactly in `ℚ`.  All claims compare `hours_left` against window bounds at
  distances (1 second = 1/3600 h and more) that are astronomically larger
  than double rounding error, so the exact-rational model decides every
  claim the same way the float code does.
* `datetime.strptime(s, "%d.%m.%Y")` is modelled over ASCII digit
  characters: 1-2 digit day in 1..31, 1-2 digit month in 1..12, exactly
  4 digit year, separated by literal dots, nothing left over, followed by
  the `datetime` constructor's calendar validation (year >= 1,
  day <= days-in-month).  CPython's `%d`/`%m` accept *unpadded* one-digit
  fields; the model reproduces that.
* Python `dict`s are modelled as association lists in insertion order
  (`dict` preserves insertion order); a new key is appended at the end,
  assignment to an existing key updates the first (unique) occurrence.
* Message dispatch (`context.bot.send_message`) is an external collaborator;
  its success/failure is an oracle parameter `oracle : String → String →
  Bool` (recipient, text ↦ send succeeded).  The code catches any exception
  of a send and continues, so the control flow never depends on the oracle.
* Each tick check is modelled as a pure function returning the updated
  manager state plus a trace of events: one `Event.send` per
  `send_message` attempt and one `Event.mark` per ledger write
  (`self.sent_reminders[key] = ...`), in program order.  The `key` field
  carried by a `send` event is bookkeeping recording which
  (deadline, threshold) firing the send belongs to; the Python call itself
  only carries recipient and text.
* `UserManager.get_users()` returns a Python `set`; the model takes the
  broadcast audience as a list in some fixed iteration order.
-/

namespace StudentBotSpec

/-! ### Date parsing: `datetime.strptime(date_str, "%d.%m.%Y")` -/

/-- ASCII digit test (CPython's `%d`/`%m`/`%Y` regex classes; non-ASCII
Unicode digits are out of scope of this model). -/
def isDigit (c : Char) : Bool := '0' ≤ c && c ≤ '9'

/-- Numeric value of a digit string (as `int()` on the matched group). -/
def digitsVal (cs : List Char) : Nat :=
  cs.foldl (fun a c => 10 * a + (c.toNat - 48)) 0

/-- Split a maximal digit prefix off a character list. -/
def takeDigits : List Char → List Char × List Char
  | [] => ([], [])
  | c :: cs =>
    if isDigit c then ((c :: (takeDigits cs).1), (takeDigits cs).2)
    else ([], c :: cs)

/-- Leap-year rule of the proleptic Gregorian calendar
(`calendar.isleap`, used by `datetime`). -/
def isLeap (y : Nat) : Bool := (y % 4 == 0 && y % 100 != 0) || y % 400 == 0

/-- Days in a month of the proleptic Gregorian calendar. -/
def daysInMonth (y m : Nat) : Nat :=
  if m = 2 then (if isLeap y then 29 else 28)
  else if m = 4 ∨ m = 6 ∨ m = 9 ∨ m = 11 then 30
  else 31

/-- A parsed calendar date (`datetime` with zero time-of-day). -/
structure Date where
  day : Nat
  month : Nat
  year : Nat
deriving Repr, DecidableEq

/-- `datetime.strptime(s, "%d.%m.%Y")` on a character list: CPython matches
`day` against `3[01]|[12]\d|0[1-9]|[1-9]` (equivalently: a 1-2 digit run of
value 1..31 followed by the literal dot), `month` against a 1-2 digit run of
value 1..12, `year` against exactly four digits, requires no unconverted
data to remain, and then the `datetime` constructor checks `1 <= year` and
`day <= daysInMonth`.  Any failure raises `ValueError`, modelled as
`none`. -/
def parseDateList (cs : List Char) : Option Date :=
  let dpart := takeDigits cs
  match dpart.2 with
  | '.' :: r1 =>
    let mpart := takeDigits r1
    match mpart.2 with
    | '.' :: r2 =>
      let ypart := takeDigits r2
      if ypart.2 = [] then
        if 1 ≤ dpart.1.length ∧ dpart.1.length ≤ 2 ∧
           1 ≤ mpart.1.length ∧ mpart.1.length ≤ 2 ∧ ypart.1.length = 4 then
          let d := digitsVal dpart.1
          let m := digitsVal mpart.1
          let y := digitsVal ypart.1
          if 1 ≤ d ∧ d ≤ 31 ∧ 1 ≤ m ∧ m ≤ 12 ∧ 1 ≤ y ∧ d ≤ daysInMonth y m
          then some ⟨d, m, y⟩ else none
        else none
      else none
    | _ => none
  | _ => none

/-- `datetime.strptime(s, "%d.%m.%Y")`, `none` on `ValueError`. -/
def parseDate (s : String) : Option Date := parseDateList s.data

/-- Days before January 1 of year `y` (as in `datetime`'s `_days_before_year`). -/
def daysBeforeYear (y : Nat) : Nat :=
  365 * (y - 1) + (y - 1) / 4 - (y - 1) / 100 + (y - 1) / 400

/-- Proleptic Gregorian ordinal of a date (01.01.0001 is day 1), as
`datetime.date.toordinal`. -/
def toOrdinal (d : Date) : Nat :=
  daysBeforeYear d.year +
    (List.range (d.month - 1)).foldl (fun a i => a + daysInMonth d.year (i + 1)) 0 +
    d.day

/-- The parsed deadline `datetime` as seconds: midnight of the calendar day. -/
def dateMidnightSecs (d : Date) : Int := (toOrdinal d : Int) * 86400

/-! ### Config (lines 53-54 of src/GitHub.py) -/

/-- `Config.CHECK_INTERVAL = 60` (seconds between ticks). -/
def CHECK_INTERVAL : Nat := 60

/-- `Config.REMINDER_HOURS = [24, 72, 120]`. -/
def REMINDER_HOURS : List Nat := [24, 72, 120]

/-! ### Threshold evaluator (lines 164-169 / 263-268) -/

/-- `hours_left = (dt - now).total_seconds() / 3600` with `dt` the parsed
deadline midnight and `now` the tick time, both in seconds. -/
def hoursLeft (dueMid now : Int) : ℚ := ((dueMid - now : Int) : ℚ) / 3600

/-- The per-threshold window test of the scan:
`lb = h - (Config.CHECK_INTERVAL / 3600); h >= hours_left > lb`. -/
def thresholdDue (h : Nat) (hl : ℚ) : Bool :=
  decide ((h : ℚ) ≥ hl ∧ hl > (h : ℚ) - (CHECK_INTERVAL : ℚ) / 3600)

/-! ### Data model -/

/-- One stored deadline record
`{"subject": ..., "task": ..., "deadline": date_str, "created_at": ...}`. -/
structure Deadline where
  subject : String
  task : String
  deadline : String
  created_at : String
deriving Repr, DecidableEq

/-- A sent-reminders ledger: a JSON-persisted `Dict[str, str]` mapping
reminder key to the `now.strftime(...)` timestamp, in insertion order. -/
abbrev Ledger := List (String × String)

/-- `key in dict` membership test. -/
def hasKey (L : Ledger) (k : String) : Bool := L.any (fun p => p.1 == k)

/-- Number of entries of the ledger carrying key `k` (a real `dict` has at
most one; the model does not assume it). -/
def countKey (L : Ledger) (k : String) : Nat := L.countP (fun p => p.1 == k)

/-- Observable actions of a tick, in program order.  `send uid key text ok`
is one `context.bot.send_message(chat_id=uid, text=text)` attempt whose
outcome is `ok` (an exception is caught and logged); the `key` records the
(deadline, threshold) firing it belongs to.  `mark key` is the ledger write
`self.sent_reminders[key] = now.strftime(...)`. -/
inductive Event where
  | send (chat_id : String) (key : String) (text : String) (ok : Bool)
  | mark (key : String)
deriving Repr, DecidableEq

/-- The reminder key an event belongs to. -/
def Event.key : Event → String
  | .send _ k _ _ => k
  | .mark k => k

/-- Is the event a ledger write? -/
def Event.isMark : Event → Bool
  | .send _ _ _ _ => false
  | .mark _ => true

/-- The events of a trace belonging to reminder key `k`. -/
def keyEvents (k : String) (evs : List Event) : List Event :=
  evs.filter (fun e => e.key == k)

/-- Number of ledger writes for key `k` in a trace. -/
def countMarks (k : String) (evs : List Event) : Nat :=
  (keyEvents k evs).countP (fun e => e.isMark)

/-- Forget send outcomes (used to state that control flow does not depend
on dispatch failures). -/
def Event.stripOk : Event → Event
  | .send uid k t _ => .send uid k t true
  | .mark k => .mark k

/-- Threshold-dependent message note (lines 173-180 / 271-278). -/
def note (h : Nat) : String :=
  if h = 24 then "Остался 1 день"
  else if h = 72 then "Осталось 3 дня"
  else if h = 120 then "Осталось 5 дней"
  else "Осталось " ++ toString h ++ " часов"

/-! ### GlobalDeadlineManager (lines 107-200) -/

/-- In-memory state of `GlobalDeadlineManager`: `self.deadlines` (a flat
list) and `self.sent_reminders` (a dict). -/
structure GlobalState where
  deadlines : List Deadline
  sent_reminders : Ledger
deriving Repr, DecidableEq

/-- `GlobalDeadlineManager.add_deadline` (lines 126-139): validate the date
with `strptime`, then append `{subject, task, deadline, created_at}` and
persist; on `ValueError` return `False` without mutating.  `created_at` is
`datetime.now().strftime(...)`, passed in as text. -/
def GlobalState.add_deadline (st : GlobalState)
    (subject task date_str created_at : String) : Bool × GlobalState :=
  match parseDate date_str with
  | some _ =>
    (true, { st with deadlines :=
        st.deadlines ++ [⟨subject, task, date_str, created_at⟩] })
  | none => (false, st)

/-- `GlobalDeadlineManager.get_deadlines` (lines 141-142). -/
def GlobalState.get_deadlines (st : GlobalState) : List Deadline := st.deadlines

/-- `GlobalDeadlineManager.remove_deadline` (lines 144-149):
`if 0 <= index < len(self.deadlines): self.deadlines.pop(index)`.  The
index is a Python `int`, hence `Int` here. -/
def GlobalState.remove_deadline (st : GlobalState) (index : Int) :
    Bool × GlobalState :=
  if 0 ≤ index ∧ index < (st.deadlines.length : Int) then
    (true, { st with deadlines := st.deadlines.eraseIdx index.toNat })
  else (false, st)

/-- Reminder key of the shared scope (line 170):
`f"{dl['subject']}_{dl['deadline']}_{int(h)}"`. -/
def globalKey (dl : Deadline) (h : Nat) : String :=
  dl.subject ++ "_" ++ dl.deadline ++ "_" ++ toString h

/-- Broadcast text of a shared reminder (lines 182-188). -/
def globalMsg (dl : Deadline) (h : Nat) : String :=
  "⚠️ (Глобальный дедлайн)\n\n" ++
  "📚 Предмет: " ++ dl.subject ++ "\n" ++
  "📝 Задание: " ++ dl.task ++ "\n" ++
  "⏰ Дедлайн: " ++ dl.deadline ++ "\n" ++
  "❗ " ++ note h

/-- Accumulator of a scan: current ledger and trace so far. -/
abbrev Acc := Ledger × List Event

/-- One send attempt per recipient in `uids`, outcome given by the oracle;
the per-recipient `try/except` makes every attempt happen regardless of
earlier failures (lines 190-194; the personal scan does the same for the
single owner, lines 287-290). -/
def broadcastSends (uids : List String) (oracle : String → String → Bool)
    (key text : String) : List Event :=
  uids.map (fun uid => Event.send uid key text (oracle uid text))

/-- The body guarded by `if reminder_key not in self.sent_reminders:`
(lines 171-197): on a fresh key, first all dispatch attempts, then the
ledger write, appending `(key, nowText)` to the dict. -/
def fireOne (key : String) (sends : List Event) (nowText : String)
    (acc : Acc) : Acc :=
  if hasKey acc.1 key then acc
  else (acc.1 ++ [(key, nowText)], acc.2 ++ sends ++ [Event.mark key])

/-- The `for h in Config.REMINDER_HOURS:` loop body of the shared scan
(lines 167-197) for one threshold. -/
def globalHourStep (users : List String) (oracle : String → String → Bool)
    (nowText : String) (dl : Deadline) (hl : ℚ) (acc : Acc) (h : Nat) : Acc :=
  if thresholdDue h hl then
    fireOne (globalKey dl h)
      (broadcastSends users oracle (globalKey dl h) (globalMsg dl h))
      nowText acc
  else acc

/-- The `for dl in self.deadlines:` loop body of the shared scan (lines
162-200): `strptime` failure (`ValueError`) skips the record (`continue`),
otherwise the three thresholds are examined in order. -/
def globalDeadlineStep (users : List String) (oracle : String → String → Bool)
    (now : Int) (nowText : String) (acc : Acc) (dl : Deadline) : Acc :=
  match parseDate dl.deadline with
  | none => acc
  | some d =>
    REMINDER_HOURS.foldl
      (globalHourStep users oracle nowText dl (hoursLeft (dateMidnightSecs d) now))
      acc

/-- `GlobalDeadlineManager.check_deadlines` (lines 151-200): scan all
shared deadlines at time `now`, with broadcast audience `users`
(`user_manager.get_users()`) and per-send outcomes given by `oracle`.
`nowText` is `now.strftime("%Y-%m-%d %H:%M:%S")`, the value written into
the ledger. -/
def check_deadlines (users : List String) (oracle : String → String → Bool)
    (now : Int) (nowText : String) (st : GlobalState) :
    GlobalState × List Event :=
  let r := st.deadlines.foldl (globalDeadlineStep users oracle now nowText)
    (st.sent_reminders, [])
  ({ st with sent_reminders := r.1 }, r.2)

/-! ### UserDeadlineManager (lines 207-295) -/

/-- `user_id in dict` on the personal-deadlines mapping. -/
def alistHasKey (m : List (String × List Deadline)) (uid : String) : Bool :=
  m.any (fun p => p.1 == uid)

/-- `self.deadlines.get(user_id, [])`. -/
def alistGet (m : List (String × List Deadline)) (uid : String) :
    List Deadline :=
  match m.find? (fun p => p.1 == uid) with
  | some p => p.2
  | none => []

/-- `self.deadlines[user_id] = v`: update the (first) existing entry in
place, or append a new key at the end of the insertion order. -/
def alistSet (m : List (String × List Deadline)) (uid : String)
    (v : List Deadline) : List (String × List Deadline) :=
  match m with
  | [] => [(uid, v)]
  | p :: rest =>
    if p.1 == uid then (uid, v) :: rest else p :: alistSet rest uid v

/-- In-memory state of `UserDeadlineManager`: `self.deadlines`
(`Dict[str, List[dict]]`) and `self.sent_reminders`. -/
structure UserState where
  deadlines : List (String × List Deadline)
  sent_reminders : Ledger
deriving Repr, DecidableEq

/-- `UserDeadlineManager.add_deadline` (lines 226-241): `strptime` first
(`ValueError` returns `False` before any mutation), then create the user's
empty list if absent, append the record, persist. -/
def UserState.add_deadline (st : UserState)
    (user_id subject task date_str created_at : String) : Bool × UserState :=
  match parseDate date_str with
  | some _ =>
    let m0 := if alistHasKey st.deadlines user_id then st.deadlines
              else st.deadlines ++ [(user_id, [])]
    let m1 := alistSet m0 user_id
      (alistGet m0 user_id ++ [⟨subject, task, date_str, created_at⟩])
    (true, { st with deadlines := m1 })
  | none => (false, st)

/-- `UserDeadlineManager.get_user_deadlines` (lines 243-244). -/
def UserState.get_user_deadlines (st : UserState) (user_id : String) :
    List Deadline := alistGet st.deadlines user_id

/-- `UserDeadlineManager.remove_deadline` (lines 246-253):
`arr = self.deadlines.get(user_id, []); if 0 <= index < len(arr): ...`;
the failure path performs no write at all. -/
def UserState.remove_deadline (st : UserState) (user_id : String)
    (index : Int) : Bool × UserState :=
  let arr := alistGet st.deadlines user_id
  if 0 ≤ index ∧ index < (arr.length : Int) then
    let m1 := alistSet st.deadlines user_id (arr.eraseIdx index.toNat)
    (true, { st with deadlines := m1 })
  else (false, st)

/-- Reminder key of the personal scope (line 269):
`f"{user_id}_{dl['subject']}_{dl['deadline']}_{int(h)}"`. -/
def personalKey (user_id : String) (dl : Deadline) (h : Nat) : String :=
  user_id ++ "_" ++ dl.subject ++ "_" ++ dl.deadline ++ "_" ++ toString h

/-- Text of a personal reminder (lines 280-286). -/
def personalMsg (dl : Deadline) (h : Nat) : String :=
  "⚠️ (Личный дедлайн)\n\n" ++
  "📚 Предмет: " ++ dl.subject ++ "\n" ++
  "📝 Задание: " ++ dl.task ++ "\n" ++
  "⏰ Дедлайн: " ++ dl.deadline ++ "\n" ++
  "❗ " ++ note h

/-- The `for h in Config.REMINDER_HOURS:` loop body of the personal scan
(lines 266-293) for one threshold: on a fresh key one send attempt to the
owner, then the ledger write. -/
def personalHourStep (oracle : String → String → Bool) (nowText : String)
    (user_id : String) (dl : Deadline) (hl : ℚ) (acc : Acc) (h : Nat) : Acc :=
  if thresholdDue h hl then
    fireOne (personalKey user_id dl h)
      (broadcastSends [user_id] oracle (personalKey user_id dl h)
        (personalMsg dl h))
      nowText acc
  else acc

/-- The `for dl in arr:` loop body of the personal scan (lines 261-295):
`ValueError` from `strptime` skips the record. -/
def personalDeadlineStep (oracle : String → String → Bool) (now : Int)
    (nowText : String) (user_id : String) (acc : Acc) (dl : Deadline) : Acc :=
  match parseDate dl.deadline with
  | none => acc
  | some d =>
    REMINDER_HOURS.foldl
      (personalHourStep oracle nowText user_id dl
        (hoursLeft (dateMidnightSecs d) now))
      acc

/-- The `for user_id, arr in self.deadlines.items():` loop body
(line 260). -/
def personalUserStep (oracle : String → String → Bool) (now : Int)
    (nowText : String) (acc : Acc) (entry : String × List Deadline) : Acc :=
  entry.2.foldl (personalDeadlineStep oracle now nowText entry.1) acc

/-- `UserDeadlineManager.check_personal_deadlines` (lines 255-295). -/
def check_personal_deadlines (oracle : String → String → Bool) (now : Int)
    (nowText : String) (st : UserState) : UserState × List Event :=
  let r := st.deadlines.foldl (personalUserStep oracle now nowText)
    (st.sent_reminders, [])
  ({ st with sent_reminders := r.1 }, r.2)

/-! ### Tick wiring (`StudentBot.run`, lines 696-705) -/

/-- The tick-varying inputs of one scheduler tick: audience snapshot, tick
time, and its formatted text. -/
structure TickInput where
  users : List String
  now : Int
  nowText : String

/-- A sequence of shared-scope ticks (`job_queue.run_repeating` of
`check_deadlines`), concatenating event traces. -/
def runTicksG (oracle : String → String → Bool) :
    List TickInput → GlobalState → GlobalState × List Event
  | [], st => (st, [])
  | t :: ts, st =>
    let r1 := check_deadlines t.users oracle t.now t.nowText st
    let r2 := runTicksG oracle ts r1.1
    (r2.1, r1.2 ++ r2.2)

/-- A sequence of personal-scope ticks (`job_queue.run_repeating` of
`check_personal_deadlines`). -/
def runTicksP (oracle : String → String → Bool) :
    List TickInput → UserState → UserState × List Event
  | [], st => (st, [])
  | t :: ts, st =>
    let r1 := check_personal_deadlines oracle t.now t.nowText st
    let r2 := runTicksP oracle ts r1.1
    (r2.1, r1.2 ++ r2.2)

/-- Both managers together, as wired in `StudentBot.run`: each tick runs
the shared scan and the personal scan on disjoint state. -/
structure BotState where
  global : GlobalState
  personal : UserState
deriving Repr, DecidableEq

/-- One full tick of the bot: shared check, then personal check. -/
def runTick (users : List String) (oracle : String → String → Bool)
    (now : Int) (nowText : String) (st : BotState) : BotState × List Event :=
  let rg := check_deadlines users oracle now nowText st.global
  let rp := check_personal_deadlines oracle now nowText st.personal
  (⟨rg.1, rp.1⟩, rg.2 ++ rp.2)

/-! ### Spec-side definition (for claim C3 only)

Modelled from the spec: "due_date: calendar date ..., parsed from a strict
`DD.MM.YYYY` format" — a string is a valid strict `DD.MM.YYYY` date iff it
is exactly two digits, dot, two digits, dot, four digits, and the three
fields denote a possible calendar date. -/

/-- Strict zero-padded `DD.MM.YYYY` with a possible calendar date, read
from the spec's words (not from the code). -/
def specStrictDDMMYYYY (s : String) : Bool :=
  match s.data with
  | [d1, d2, '.', m1, m2, '.', y1, y2, y3, y4] =>
    isDigit d1 && isDigit d2 && isDigit m1 && isDigit m2 &&
    isDigit y1 && isDigit y2 && isDigit y3 && isDigit y4 &&
    (let d := digitsVal [d1, d2]
     let m := digitsVal [m1, m2]
     let y := digitsVal [y1, y2, y3, y4]
     decide (1 ≤ d ∧ 1 ≤ m ∧ m ≤ 12 ∧ 1 ≤ y ∧ d ≤ daysInMonth y m))
  | _ => false

/-! ### Proof-side repackagings and concrete inputs -/

/-- One shared-scope tick viewed as a step on a ledger/trace accumulator
(the fold inside `check_deadlines`, with the deadline list held fixed — a
tick never modifies the deadline store). -/
def tickStepG (ds : List Deadline) (oracle : String → String → Bool)
    (acc : Acc) (t : TickInput) : Acc :=
  ds.foldl (globalDeadlineStep t.users oracle t.now t.nowText) acc

/-- One personal-scope tick viewed as a step on the accumulator. -/
def tickStepP (ds : List (String × List Deadline))
    (oracle : String → String → Bool) (acc : Acc) (t : TickInput) : Acc :=
  ds.foldl (personalUserStep oracle t.now t.nowText) acc

/-- Every ledger write `mark k` in a shared-scan trace sits at the end of a
contiguous block: one send attempt per registered user, then the write. -/
def GlobalBlocked (users : List String) (oracle : String → String → Bool)
    (D : List Deadline) (evs : List Event) : Prop :=
  ∀ k, Event.mark k ∈ evs →
    ∃ dl h, dl ∈ D ∧ h ∈ REMINDER_HOURS ∧ k = globalKey dl h ∧
      ∃ p q, evs =
        p ++ (broadcastSends users oracle k (globalMsg dl h) ++ [Event.mark k]) ++ q

/-- Invariant package of a scan step with respect to one reminder key `k`:
(`split`) the step only appends to the trace and ignores the trace so far;
(`frozen`) while `k` is in the ledger no event for `k` is ever emitted;
(`growth`) ledger entries for `k` are created exactly by `mark k` events;
(`fresh`) from a `k`-free ledger, at most one `mark k` is emitted, and `k`
ends up in the ledger iff it was emitted.  Every loop body of the two scans
satisfies this for every `k`, and the property is closed under folds. -/
structure SafeStep {α : Type} (step : Acc → α → Acc) (k : String) : Prop where
  split : ∀ L evs x, step (L, evs) x = ((step (L, []) x).1, evs ++ (step (L, []) x).2)
  frozen : ∀ L x, hasKey L k = true → keyEvents k (step (L, []) x).2 = []
  growth : ∀ L x,
    countKey (step (L, []) x).1 k = countKey L k + countMarks k (step (L, []) x).2
  fresh : ∀ L x, hasKey L k = false →
    countMarks k (step (L, []) x).2 ≤ 1 ∧
      hasKey (step (L, []) x).1 k = decide (countMarks k (step (L, []) x).2 = 1)

/-- Concrete deadline used by the witnesses. -/
def cDl : Deadline := ⟨"Math", "HW1", "01.01.2030", "2029-12-20 10:00:00"⟩

/-- Concrete corrupted record (unparseable stored date). -/
def cBad : Deadline := ⟨"Phys", "Lab", "corrupted", "2029-12-20 10:00:00"⟩

/-- Midnight of 01.01.2030 in seconds. -/
def cMid : Int := dateMidnightSecs ⟨1, 1, 2030⟩

/-- Oracle under which every send succeeds. -/
def cOracle : String → String → Bool := fun _ _ => true

/-- Oracle under which every send fails. -/
def cOracleFail : String → String → Bool := fun _ _ => false

/-- Concrete tick exactly 24 hours before `cDl`'s midnight. -/
def cTick : TickInput := ⟨["u1"], cMid - 86400, "2029-12-31 00:00:00"⟩

/-- Concrete shared store holding `cDl`, empty ledger. -/
def cGst : GlobalState := ⟨[cDl], []⟩

/-- Concrete shared store whose ledger already holds the 24h key of `cDl`. -/
def cGstSent : GlobalState := ⟨[cDl], [("Math_01.01.2030_24", "t0")]⟩

/-- Concrete personal store: user `"42"` owns `cDl`, empty ledger. -/
def cPst : UserState := ⟨[("42", [cDl])], []⟩

/-- Concrete personal store whose ledger already holds the 24h key. -/
def cPstSent : UserState := ⟨[("42", [cDl])], [("42_Math_01.01.2030_24", "t0")]⟩

/-! ## Basic lemmas about ledgers and traces -/

theorem hasKey_true_iff (L : Ledger) (k : String) :
    hasKey L k = true ↔ 0 < countKey L k := by
  rw [hasKey, countKey, List.any_eq_true, List.countP_pos_iff]

theorem hasKey_false_iff (L : Ledger) (k : String) :
    hasKey L k = false ↔ countKey L k = 0 := by
  rw [← Bool.not_eq_true, hasKey_true_iff]
  omega

theorem countKey_append (L M : Ledger) (k : String) :
    countKey (L ++ M) k = countKey L k + countKey M k := by
  simp [countKey, List.countP_append]

theorem keyEvents_append (k : String) (a b : List Event) :
    keyEvents k (a ++ b) = keyEvents k a ++ keyEvents k b := by
  simp [keyEvents, List.filter_append]

theorem countMarks_append (k : String) (a b : List Event) :
    countMarks k (a ++ b) = countMarks k a + countMarks k b := by
  simp [countMarks, keyEvents_append, List.countP_append]

theorem countMarks_nil (k : String) : countMarks k [] = 0 := rfl

theorem keyEvents_broadcastSends (k : String) (uids : List String)
    (oracle : String → String → Bool) (key text : String) (hne : key ≠ k) :
    keyEvents k (broadcastSends uids oracle key text) = [] := by
  induction uids with
  | nil => rfl
  | cons u us ih =>
    simp only [broadcastSends, List.map_cons] at ih ⊢
    rw [show (Event.send u key text (oracle u text)) :: List.map _ us =
      [Event.send u key text (oracle u text)] ++ List.map _ us from rfl,
      keyEvents_append, ih]
    simp [keyEvents, Event.key, hne]

theorem countMarks_broadcastSends (k : String) (uids : List String)
    (oracle : String → String → Bool) (key text : String) :
    countMarks k (broadcastSends uids oracle key text) = 0 := by
  induction uids with
  | nil => rfl
  | cons u us ih =>
    simp only [broadcastSends, List.map_cons] at ih ⊢
    rw [show (Event.send u key text (oracle u text)) :: List.map _ us =
      [Event.send u key text (oracle u text)] ++ List.map _ us from rfl,
      countMarks_append, ih]
    simp [countMarks, keyEvents, Event.key, Event.isMark]

theorem countMarks_mark (k key : String) :
    countMarks k [Event.mark key] = if key = k then 1 else 0 := by
  by_cases h : key = k <;>
    simp [countMarks, keyEvents, Event.key, Event.isMark, h, List.countP,
      List.countP.go]

theorem keyEvents_mark_ne (k key : String) (h : key ≠ k) :
    keyEvents k [Event.mark key] = [] := by
  simp [keyEvents, Event.key, h]

theorem hasKey_append_single (L : Ledger) (key v k : String) :
    hasKey (L ++ [(key, v)]) k = (hasKey L k || (key == k)) := by
  simp [hasKey, List.any_append]

theorem countKey_append_single (L : Ledger) (key v k : String) :
    countKey (L ++ [(key, v)]) k = countKey L k + if key = k then 1 else 0 := by
  rw [countKey_append]
  by_cases h : key = k <;> simp [countKey, List.countP_cons, h]

theorem countMarks_eq_zero_of_keyEvents_nil (k : String) (evs : List Event)
    (h : keyEvents k evs = []) : countMarks k evs = 0 := by
  rw [countMarks, h, List.countP_nil]

theorem mark_mem_of_countMarks_pos (k : String) (evs : List Event)
    (h : 0 < countMarks k evs) : Event.mark k ∈ evs := by
  rw [countMarks, List.countP_pos_iff] at h
  obtain ⟨e, he, hm⟩ := h
  rw [keyEvents, List.mem_filter] at he
  obtain ⟨hmem, hk⟩ := he
  cases e with
  | send _ _ _ _ => simp [Event.isMark] at hm
  | mark k2 =>
    simp only [Event.key, beq_iff_eq] at hk
    rwa [hk] at hmem

theorem mark_mem_countMarks_pos (k : String) (evs : List Event)
    (h : Event.mark k ∈ evs) : 0 < countMarks k evs := by
  rw [countMarks, List.countP_pos_iff]
  refine ⟨Event.mark k, ?_, by simp [Event.isMark]⟩
  rw [keyEvents, List.mem_filter]
  exact ⟨h, by simp [Event.key]⟩

/-! ## Integer characterization of the threshold window -/

theorem thresholdDue_hoursLeft (h : Nat) (d n : Int) :
    thresholdDue h (hoursLeft d n) =
      decide (d - n ≤ 3600 * (h : Int) ∧ 3600 * (h : Int) - 60 < d - n) := by
  rw [thresholdDue, hoursLeft, decide_eq_decide, CHECK_INTERVAL]
  rw [ge_iff_le, gt_iff_lt]
  rw [div_le_iff₀ (by norm_num : (0:ℚ) < 3600),
    lt_div_iff₀ (by norm_num : (0:ℚ) < 3600)]
  constructor
  · rintro ⟨h1, h2⟩
    refine ⟨?_, ?_⟩
    · rw [show (h:ℚ) * 3600 = ((3600 * (h:Int) : Int) : ℚ) by push_cast; ring] at h1
      exact_mod_cast h1
    · rw [show ((h:ℚ) - ((60:Nat):ℚ)/3600) * 3600 = ((3600 * (h:Int) - 60 : Int) : ℚ) by
        push_cast; ring] at h2
      exact_mod_cast h2
  · rintro ⟨h1, h2⟩
    refine ⟨?_, ?_⟩
    · rw [show (h:ℚ) * 3600 = ((3600 * (h:Int) : Int) : ℚ) by push_cast; ring]
      exact_mod_cast h1
    · rw [show ((h:ℚ) - ((60:Nat):ℚ)/3600) * 3600 = ((3600 * (h:Int) - 60 : Int) : ℚ) by
        push_cast; ring]
      exact_mod_cast h2

theorem thresholdDue_iff (h : Nat) (hl : ℚ) :
    thresholdDue h hl = true ↔ hl ≤ (h : ℚ) ∧ (h : ℚ) - 60 / 3600 < hl := by
  rw [thresholdDue, decide_eq_true_eq, CHECK_INTERVAL]
  norm_num [ge_iff_le, gt_iff_lt]

/-! ## SafeStep: dedup invariants are closed under folds -/

theorem SafeStep.hasKey_step {α : Type} {step : Acc → α → Acc} {k : String}
    (hs : SafeStep step k) (L : Ledger) (x : α) (h : hasKey L k = true) :
    hasKey (step (L, []) x).1 k = true := by
  rw [hasKey_true_iff] at h ⊢
  rw [hs.growth]
  omega

theorem SafeStep.frozen_marks {α : Type} {step : Acc → α → Acc} {k : String}
    (hs : SafeStep step k) (L : Ledger) (x : α) (h : hasKey L k = true) :
    countMarks k (step (L, []) x).2 = 0 :=
  countMarks_eq_zero_of_keyEvents_nil k _ (hs.frozen L x h)

theorem SafeStep.id {α : Type} (k : String) :
    SafeStep (fun (acc : Acc) (_ : α) => acc) k := by
  refine ⟨?_, ?_, ?_, ?_⟩
  · intro L evs x; simp
  · intro L x _; rfl
  · intro L x; simp [countMarks_nil]
  · intro L x h; simp [countMarks_nil, h]

theorem SafeStep.const {α β : Type} {step : Acc → α → Acc} {k : String}
    (hs : SafeStep step k) (x0 : α) :
    SafeStep (fun (acc : Acc) (_ : β) => step acc x0) k := by
  refine ⟨?_, ?_, ?_, ?_⟩
  · intro L evs x; exact hs.split L evs x0
  · intro L x h; exact hs.frozen L x0 h
  · intro L x; exact hs.growth L x0
  · intro L x h; exact hs.fresh L x0 h

theorem SafeStep.ofPointwise {α : Type} {step : Acc → α → Acc} {k : String}
    (H : ∀ x : α, SafeStep (fun acc (_ : Unit) => step acc x) k) :
    SafeStep step k := by
  refine ⟨?_, ?_, ?_, ?_⟩
  · intro L evs x; exact (H x).split L evs ()
  · intro L x h; exact (H x).frozen L () h
  · intro L x; exact (H x).growth L ()
  · intro L x h; exact (H x).fresh L () h

theorem foldl_split {α : Type} {step : Acc → α → Acc} {k : String}
    (hs : SafeStep step k) :
    ∀ (xs : List α) (L : Ledger) (evs : List Event),
      xs.foldl step (L, evs) =
        ((xs.foldl step (L, [])).1, evs ++ (xs.foldl step (L, [])).2) := by
  intro xs
  induction xs with
  | nil => intro L evs; simp
  | cons x xs ih =>
    intro L evs
    simp only [List.foldl_cons]
    rw [hs.split L evs x, ih (step (L, []) x).1 (evs ++ (step (L, []) x).2)]
    conv_rhs => rw [hs.split L [] x]
    rw [List.nil_append,
      ih (step (L, []) x).1 (step (L, []) x).2, List.append_assoc]

theorem foldl_growth {α : Type} {step : Acc → α → Acc} {k : String}
    (hs : SafeStep step k) :
    ∀ (xs : List α) (L : Ledger),
      countKey (xs.foldl step (L, [])).1 k =
        countKey L k + countMarks k (xs.foldl step (L, [])).2 := by
  intro xs
  induction xs with
  | nil => intro L; simp [countMarks_nil]
  | cons x xs ih =>
    intro L
    simp only [List.foldl_cons]
    rw [hs.split L [] x, List.nil_append,
      foldl_split hs xs (step (L, []) x).1 (step (L, []) x).2]
    rw [countMarks_append, ih (step (L, []) x).1, hs.growth L x]
    omega

theorem foldl_hasKey_mono {α : Type} {step : Acc → α → Acc} {k : String}
    (hs : SafeStep step k) (xs : List α) (L : Ledger)
    (h : hasKey L k = true) : hasKey (xs.foldl step (L, [])).1 k = true := by
  rw [hasKey_true_iff] at h ⊢
  rw [foldl_growth hs]
  omega

theorem foldl_frozen {α : Type} {step : Acc → α → Acc} {k : String}
    (hs : SafeStep step k) :
    ∀ (xs : List α) (L : Ledger), hasKey L k = true →
      keyEvents k (xs.foldl step (L, [])).2 = [] := by
  intro xs
  induction xs with
  | nil => intro L _; rfl
  | cons x xs ih =>
    intro L h
    simp only [List.foldl_cons]
    rw [hs.split L [] x, List.nil_append,
      foldl_split hs xs (step (L, []) x).1 (step (L, []) x).2]
    rw [keyEvents_append, hs.frozen L x h, ih _ (hs.hasKey_step L x h),
      List.nil_append]

theorem foldl_fresh {α : Type} {step : Acc → α → Acc} {k : String}
    (hs : SafeStep step k) :
    ∀ (xs : List α) (L : Ledger), hasKey L k = false →
      countMarks k (xs.foldl step (L, [])).2 ≤ 1 ∧
        hasKey (xs.foldl step (L, [])).1 k =
          decide (countMarks k (xs.foldl step (L, [])).2 = 1) := by
  intro xs
  induction xs with
  | nil => intro L h; simp [countMarks_nil, h]
  | cons x xs ih =>
    intro L h
    simp only [List.foldl_cons]
    obtain ⟨hc1, hc2⟩ := hs.fresh L x h
    have hsplit : List.foldl step (step (L, []) x) xs =
        ((List.foldl step ((step (L, []) x).1, []) xs).1,
          (step (L, []) x).2 ++ (List.foldl step ((step (L, []) x).1, []) xs).2) :=
      foldl_split hs xs (step (L, []) x).1 (step (L, []) x).2
    simp only [hsplit]
    rw [countMarks_append]
    by_cases hN : hasKey (step (L, []) x).1 k = true
    · have hcm1 : countMarks k (step (L, []) x).2 = 1 := by
        rw [hN] at hc2
        exact of_decide_eq_true hc2.symm
      have hrest0 : countMarks k (xs.foldl step ((step (L, []) x).1, [])).2 = 0 :=
        countMarks_eq_zero_of_keyEvents_nil k _ (foldl_frozen hs xs _ hN)
      rw [hcm1, hrest0]
      refine ⟨by omega, ?_⟩
      rw [foldl_hasKey_mono hs xs _ hN]
      simp
    · have hN' : hasKey (step (L, []) x).1 k = false := by
        rw [Bool.not_eq_true] at hN
        exact hN
      have hcm0 : countMarks k (step (L, []) x).2 = 0 := by
        rw [hN'] at hc2
        have := of_decide_eq_false hc2.symm
        omega
      obtain ⟨hr1, hr2⟩ := ih _ hN'
      rw [hcm0]
      exact ⟨by omega, by simpa using hr2⟩

theorem SafeStep.fold {α : Type} {step : Acc → α → Acc} {k : String}
    (hs : SafeStep step k) :
    SafeStep (fun (acc : Acc) (xs : List α) => xs.foldl step acc) k := by
  refine ⟨?_, ?_, ?_, ?_⟩
  · intro L evs xs; exact foldl_split hs xs L evs
  · intro L xs h; exact foldl_frozen hs xs L h
  · intro L xs; exact foldl_growth hs xs L
  · intro L xs h; exact foldl_fresh hs xs L h

theorem foldl_split_acc {α : Type} {step : Acc → α → Acc} {k : String}
    (hs : SafeStep step k) (xs : List α) (A : Acc) :
    xs.foldl step A = ((xs.foldl step (A.1, []) ).1, A.2 ++ (xs.foldl step (A.1, []) ).2) := by
  conv_lhs => rw [show A = (A.1, A.2) from rfl]
  exact foldl_split hs xs A.1 A.2

/-! ## The scan loop bodies satisfy SafeStep -/

theorem safeStep_guardedFire {α : Type} (cond : α → Bool) (keyOf : α → String)
    (sendsOf : α → List Event) (nt : String) (k : String)
    (hmarks : ∀ x, countMarks k (sendsOf x) = 0)
    (hkeyev : ∀ x, keyOf x ≠ k → keyEvents k (sendsOf x) = []) :
    SafeStep (fun acc x => if cond x then fireOne (keyOf x) (sendsOf x) nt acc else acc) k := by
  refine ⟨?_, ?_, ?_, ?_⟩
  · intro L evs x
    by_cases hc : cond x = true
    · simp only [hc, if_true, fireOne]
      by_cases hk : hasKey L (keyOf x) = true
      · simp [hk]
      · simp only [Bool.not_eq_true] at hk
        simp [hk, List.append_assoc]
    · simp only [Bool.not_eq_true] at hc
      simp [hc]
  · intro L x hh
    by_cases hc : cond x = true
    · simp only [hc, if_true, fireOne]
      by_cases hk : hasKey L (keyOf x) = true
      · simp [hk, keyEvents]
      · have hne : keyOf x ≠ k := by
          intro he; rw [he, hh] at hk; exact hk rfl
        simp only [Bool.not_eq_true] at hk
        simp only [hk, Bool.false_eq_true, if_false, List.nil_append]
        rw [keyEvents_append, hkeyev x hne, keyEvents_mark_ne k _ hne,
          List.append_nil]
    · simp only [Bool.not_eq_true] at hc
      simp [hc, keyEvents]
  · intro L x
    by_cases hc : cond x = true
    · simp only [hc, if_true, fireOne]
      by_cases hk : hasKey L (keyOf x) = true
      · simp [hk, countMarks_nil]
      · simp only [Bool.not_eq_true] at hk
        simp only [hk, Bool.false_eq_true, if_false, List.nil_append]
        rw [countMarks_append, hmarks x, countMarks_mark,
          countKey_append_single]
        omega
    · simp only [Bool.not_eq_true] at hc
      simp [hc, countMarks_nil]
  · intro L x hfa
    by_cases hc : cond x = true
    · simp only [hc, if_true, fireOne]
      by_cases hk : hasKey L (keyOf x) = true
      · simp [hk, countMarks_nil, hfa]
      · simp only [Bool.not_eq_true] at hk
        simp only [hk, Bool.false_eq_true, if_false, List.nil_append]
        rw [countMarks_append, hmarks x, countMarks_mark,
          hasKey_append_single, hfa]
        by_cases he : keyOf x = k
        · simp [he]
        · simp [he, Bool.false_or, beq_iff_eq]
    · simp only [Bool.not_eq_true] at hc
      simp [hc, countMarks_nil, hfa]

theorem globalHourStep_safe (users : List String)
    (oracle : String → String → Bool) (nt : String) (dl : Deadline) (hl : ℚ)
    (k : String) : SafeStep (globalHourStep users oracle nt dl hl) k := by
  have h := safeStep_guardedFire (fun h : Nat => thresholdDue h hl)
    (fun h => globalKey dl h)
    (fun h => broadcastSends users oracle (globalKey dl h) (globalMsg dl h))
    nt k
    (fun h => countMarks_broadcastSends k users oracle _ _)
    (fun h hne => keyEvents_broadcastSends k users oracle _ _ hne)
  exact h

theorem personalHourStep_safe (oracle : String → String → Bool) (nt : String)
    (uid : String) (dl : Deadline) (hl : ℚ) (k : String) :
    SafeStep (personalHourStep oracle nt uid dl hl) k := by
  have h := safeStep_guardedFire (fun h : Nat => thresholdDue h hl)
    (fun h => personalKey uid dl h)
    (fun h => broadcastSends [uid] oracle (personalKey uid dl h) (personalMsg dl h))
    nt k
    (fun h => countMarks_broadcastSends k [uid] oracle _ _)
    (fun h hne => keyEvents_broadcastSends k [uid] oracle _ _ hne)
  exact h

theorem globalDeadlineStep_safe (users : List String)
    (oracle : String → String → Bool) (now : Int) (nt : String) (k : String) :
    SafeStep (globalDeadlineStep users oracle now nt) k := by
  apply SafeStep.ofPointwise
  intro dl
  cases hp : parseDate dl.deadline with
  | none =>
    have he : (fun acc (_ : Unit) => globalDeadlineStep users oracle now nt acc dl) =
        fun acc _ => acc := by
      funext acc u; simp [globalDeadlineStep, hp]
    rw [he]; exact SafeStep.id k
  | some d =>
    have he : (fun acc (_ : Unit) => globalDeadlineStep users oracle now nt acc dl) =
        fun acc _ => REMINDER_HOURS.foldl
          (globalHourStep users oracle nt dl (hoursLeft (dateMidnightSecs d) now)) acc := by
      funext acc u; simp [globalDeadlineStep, hp]
    rw [he]
    exact SafeStep.const (SafeStep.fold (globalHourStep_safe users oracle nt dl _ k))
      REMINDER_HOURS

theorem personalDeadlineStep_safe (oracle : String → String → Bool) (now : Int)
    (nt : String) (uid : String) (k : String) :
    SafeStep (personalDeadlineStep oracle now nt uid) k := by
  apply SafeStep.ofPointwise
  intro dl
  cases hp : parseDate dl.deadline with
  | none =>
    have he : (fun acc (_ : Unit) => personalDeadlineStep oracle now nt uid acc dl) =
        fun acc _ => acc := by
      funext acc u; simp [personalDeadlineStep, hp]
    rw [he]; exact SafeStep.id k
  | some d =>
    have he : (fun acc (_ : Unit) => personalDeadlineStep oracle now nt uid acc dl) =
        fun acc _ => REMINDER_HOURS.foldl
          (personalHourStep oracle nt uid dl (hoursLeft (dateMidnightSecs d) now)) acc := by
      funext acc u; simp [personalDeadlineStep, hp]
    rw [he]
    exact SafeStep.const (SafeStep.fold (personalHourStep_safe oracle nt uid dl _ k))
      REMINDER_HOURS

theorem personalUserStep_safe (oracle : String → String → Bool) (now : Int)
    (nt : String) (k : String) : SafeStep (personalUserStep oracle now nt) k := by
  apply SafeStep.ofPointwise
  intro entry
  have he : (fun acc (_ : Unit) => personalUserStep oracle now nt acc entry) =
      fun acc _ => entry.2.foldl (personalDeadlineStep oracle now nt entry.1) acc := rfl
  rw [he]
  exact SafeStep.const (SafeStep.fold (personalDeadlineStep_safe oracle now nt entry.1 k))
    entry.2

theorem tickStepG_safe (ds : List Deadline) (oracle : String → String → Bool)
    (k : String) : SafeStep (tickStepG ds oracle) k := by
  apply SafeStep.ofPointwise
  intro t
  have he : (fun acc (_ : Unit) => tickStepG ds oracle acc t) =
      fun acc _ => ds.foldl (globalDeadlineStep t.users oracle t.now t.nowText) acc := rfl
  rw [he]
  exact SafeStep.const (SafeStep.fold (globalDeadlineStep_safe t.users oracle t.now t.nowText k)) ds

theorem tickStepP_safe (ds : List (String × List Deadline))
    (oracle : String → String → Bool) (k : String) :
    SafeStep (tickStepP ds oracle) k := by
  apply SafeStep.ofPointwise
  intro t
  have he : (fun acc (_ : Unit) => tickStepP ds oracle acc t) =
      fun acc _ => ds.foldl (personalUserStep oracle t.now t.nowText) acc := rfl
  rw [he]
  exact SafeStep.const (SafeStep.fold (personalUserStep_safe oracle t.now t.nowText k)) ds

/-! ## The tick functions as folds -/

theorem check_deadlines_eq (users : List String)
    (oracle : String → String → Bool) (now : Int) (nt : String)
    (st : GlobalState) :
    check_deadlines users oracle now nt st =
      ({ st with sent_reminders :=
          (tickStepG st.deadlines oracle (st.sent_reminders, []) ⟨users, now, nt⟩).1 },
        (tickStepG st.deadlines oracle (st.sent_reminders, []) ⟨users, now, nt⟩).2) := rfl

theorem check_personal_deadlines_eq (oracle : String → String → Bool)
    (now : Int) (nt : String) (st : UserState) :
    check_personal_deadlines oracle now nt st =
      ({ st with sent_reminders :=
          (tickStepP st.deadlines oracle (st.sent_reminders, []) ⟨[], now, nt⟩).1 },
        (tickStepP st.deadlines oracle (st.sent_reminders, []) ⟨[], now, nt⟩).2) := rfl

theorem check_deadlines_deadlines (users : List String)
    (oracle : String → String → Bool) (now : Int) (nt : String)
    (st : GlobalState) :
    (check_deadlines users oracle now nt st).1.deadlines = st.deadlines := rfl

theorem check_personal_deadlines_deadlines (oracle : String → String → Bool)
    (now : Int) (nt : String) (st : UserState) :
    (check_personal_deadlines oracle now nt st).1.deadlines = st.deadlines := rfl

theorem runTicksG_eq (oracle : String → String → Bool) :
    ∀ (ticks : List TickInput) (st : GlobalState),
      runTicksG oracle ticks st =
        ({ st with sent_reminders :=
            (ticks.foldl (tickStepG st.deadlines oracle) (st.sent_reminders, [])).1 },
          (ticks.foldl (tickStepG st.deadlines oracle) (st.sent_reminders, [])).2) := by
  intro ticks
  induction ticks with
  | nil => intro st; rfl
  | cons t ts ih =>
    intro st
    have hcheck : check_deadlines t.users oracle t.now t.nowText st =
        ({ st with sent_reminders :=
            (tickStepG st.deadlines oracle (st.sent_reminders, []) t).1 },
          (tickStepG st.deadlines oracle (st.sent_reminders, []) t).2) := rfl
    simp only [runTicksG, hcheck, ih]
    rw [List.foldl_cons,
      foldl_split_acc (tickStepG_safe st.deadlines oracle "") ts
        (tickStepG st.deadlines oracle (st.sent_reminders, []) t)]

theorem runTicksP_eq (oracle : String → String → Bool) :
    ∀ (ticks : List TickInput) (st : UserState),
      runTicksP oracle ticks st =
        ({ st with sent_reminders :=
            (ticks.foldl (tickStepP st.deadlines oracle) (st.sent_reminders, [])).1 },
          (ticks.foldl (tickStepP st.deadlines oracle) (st.sent_reminders, [])).2) := by
  intro ticks
  induction ticks with
  | nil => intro st; rfl
  | cons t ts ih =>
    intro st
    have hcheck : check_personal_deadlines oracle t.now t.nowText st =
        ({ st with sent_reminders :=
            (tickStepP st.deadlines oracle (st.sent_reminders, []) t).1 },
          (tickStepP st.deadlines oracle (st.sent_reminders, []) t).2) := rfl
    simp only [runTicksP, hcheck, ih]
    rw [List.foldl_cons,
      foldl_split_acc (tickStepP_safe st.deadlines oracle "") ts
        (tickStepP st.deadlines oracle (st.sent_reminders, []) t)]

/-! ## Once a threshold fires, its key is in the ledger (used for C5) -/

theorem foldl_hasKey_mono_acc {α : Type} {step : Acc → α → Acc} {k : String}
    (hs : SafeStep step k) (xs : List α) (A : Acc)
    (h : hasKey A.1 k = true) : hasKey (xs.foldl step A).1 k = true := by
  rw [foldl_split_acc hs xs A]
  exact foldl_hasKey_mono hs xs A.1 h

theorem guardedFire_foldl_present {α : Type} (cond : α → Bool)
    (keyOf : α → String) (sendsOf : α → List Event) (nt : String)
    (hmarks : ∀ x k, countMarks k (sendsOf x) = 0)
    (hkeyev : ∀ x k, keyOf x ≠ k → keyEvents k (sendsOf x) = []) :
    ∀ (xs : List α) (acc : Acc) (x : α), x ∈ xs → cond x = true →
      hasKey (xs.foldl
        (fun acc x => if cond x then fireOne (keyOf x) (sendsOf x) nt acc else acc)
        acc).1 (keyOf x) = true := by
  intro xs
  induction xs with
  | nil => intro acc x hmem; simp at hmem
  | cons a rest ih =>
    intro acc x hmem hcond
    rw [List.foldl_cons]
    rcases List.mem_cons.mp hmem with he | hm
    · subst he
      have h1 : hasKey ((if cond x then fireOne (keyOf x) (sendsOf x) nt acc else acc)).1
          (keyOf x) = true := by
        simp only [hcond, if_true, fireOne]
        by_cases hk : hasKey acc.1 (keyOf x) = true
        · simp [hk]
        · simp only [Bool.not_eq_true] at hk
          simp [hk, hasKey_append_single]
      exact foldl_hasKey_mono_acc
        (safeStep_guardedFire cond keyOf sendsOf nt (keyOf x)
          (fun y => hmarks y (keyOf x)) (fun y hne => hkeyev y (keyOf x) hne))
        rest _ h1
    · exact ih _ x hm hcond

theorem guardedFire_foldl_id {α : Type} (cond : α → Bool)
    (keyOf : α → String) (sendsOf : α → List Event) (nt : String)
    (L : Ledger) (evs : List Event) :
    ∀ (xs : List α), (∀ x ∈ xs, cond x = true → hasKey L (keyOf x) = true) →
      xs.foldl
        (fun acc x => if cond x then fireOne (keyOf x) (sendsOf x) nt acc else acc)
        (L, evs) = (L, evs) := by
  intro xs
  induction xs with
  | nil => intro _; rfl
  | cons a rest ih =>
    intro H
    rw [List.foldl_cons]
    have hstep : (if cond a then fireOne (keyOf a) (sendsOf a) nt (L, evs) else (L, evs))
        = (L, evs) := by
      by_cases hc : cond a = true
      · simp only [hc, if_true, fireOne]
        have hk := H a (List.mem_cons_self a rest) hc
        simp [hk]
      · simp only [Bool.not_eq_true] at hc
        simp [hc]
    rw [hstep]
    exact ih (fun x hm hc => H x (List.mem_cons_of_mem a hm) hc)

theorem broadcastSends_marks (uids : List String)
    (oracle : String → String → Bool) (key text : String) (k : String) :
    countMarks k (broadcastSends uids oracle key text) = 0 :=
  countMarks_broadcastSends k uids oracle key text

theorem globalDeadlineStep_present (users : List String)
    (oracle : String → String → Bool) (now : Int) (nt : String)
    (acc : Acc) (dl : Deadline) (d : Date) (h : Nat)
    (hp : parseDate dl.deadline = some d) (hm : h ∈ REMINDER_HOURS)
    (hdue : thresholdDue h (hoursLeft (dateMidnightSecs d) now) = true) :
    hasKey (globalDeadlineStep users oracle now nt acc dl).1 (globalKey dl h) = true := by
  simp only [globalDeadlineStep, hp]
  exact guardedFire_foldl_present (fun h : Nat => thresholdDue h (hoursLeft (dateMidnightSecs d) now))
    (fun h => globalKey dl h)
    (fun h => broadcastSends users oracle (globalKey dl h) (globalMsg dl h)) nt
    (fun x k => broadcastSends_marks users oracle _ _ k)
    (fun x k hne => keyEvents_broadcastSends k users oracle _ _ hne)
    REMINDER_HOURS acc h hm hdue

theorem globalScan_present (users : List String)
    (oracle : String → String → Bool) (now : Int) (nt : String) :
    ∀ (ds : List Deadline) (acc : Acc) (dl : Deadline) (d : Date) (h : Nat),
      dl ∈ ds → parseDate dl.deadline = some d → h ∈ REMINDER_HOURS →
      thresholdDue h (hoursLeft (dateMidnightSecs d) now) = true →
      hasKey (ds.foldl (globalDeadlineStep users oracle now nt) acc).1
        (globalKey dl h) = true := by
  intro ds
  induction ds with
  | nil => intro acc dl d h hmem; simp at hmem
  | cons a rest ih =>
    intro acc dl d h hmem hp hm hdue
    rw [List.foldl_cons]
    rcases List.mem_cons.mp hmem with he | hm2
    · subst he
      exact foldl_hasKey_mono_acc
        (globalDeadlineStep_safe users oracle now nt (globalKey dl h)) rest _
        (globalDeadlineStep_present users oracle now nt acc dl d h hp hm hdue)
    · exact ih _ dl d h hm2 hp hm hdue

theorem check_deadlines_present (users : List String)
    (oracle : String → String → Bool) (now : Int) (nt : String)
    (st : GlobalState) (dl : Deadline) (d : Date) (h : Nat)
    (hmem : dl ∈ st.deadlines) (hp : parseDate dl.deadline = some d)
    (hm : h ∈ REMINDER_HOURS)
    (hdue : thresholdDue h (hoursLeft (dateMidnightSecs d) now) = true) :
    hasKey (check_deadlines users oracle now nt st).1.sent_reminders
      (globalKey dl h) = true :=
  globalScan_present users oracle now nt st.deadlines (st.sent_reminders, [])
    dl d h hmem hp hm hdue

theorem personalDeadlineStep_present (oracle : String → String → Bool)
    (now : Int) (nt : String) (uid : String)
    (acc : Acc) (dl : Deadline) (d : Date) (h : Nat)
    (hp : parseDate dl.deadline = some d) (hm : h ∈ REMINDER_HOURS)
    (hdue : thresholdDue h (hoursLeft (dateMidnightSecs d) now) = true) :
    hasKey (personalDeadlineStep oracle now nt uid acc dl).1
      (personalKey uid dl h) = true := by
  simp only [personalDeadlineStep, hp]
  exact guardedFire_foldl_present (fun h : Nat => thresholdDue h (hoursLeft (dateMidnightSecs d) now))
    (fun h => personalKey uid dl h)
    (fun h => broadcastSends [uid] oracle (personalKey uid dl h) (personalMsg dl h)) nt
    (fun x k => broadcastSends_marks [uid] oracle _ _ k)
    (fun x k hne => keyEvents_broadcastSends k [uid] oracle _ _ hne)
    REMINDER_HOURS acc h hm hdue

theorem personalArr_present (oracle : String → String → Bool)
    (now : Int) (nt : String) (uid : String) :
    ∀ (arr : List Deadline) (acc : Acc) (dl : Deadline) (d : Date) (h : Nat),
      dl ∈ arr → parseDate dl.deadline = some d → h ∈ REMINDER_HOURS →
      thresholdDue h (hoursLeft (dateMidnightSecs d) now) = true →
      hasKey (arr.foldl (personalDeadlineStep oracle now nt uid) acc).1
        (personalKey uid dl h) = true := by
  intro arr
  induction arr with
  | nil => intro acc dl d h hmem; simp at hmem
  | cons a rest ih =>
    intro acc dl d h hmem hp hm hdue
    rw [List.foldl_cons]
    rcases List.mem_cons.mp hmem with he | hm2
    · subst he
      exact foldl_hasKey_mono_acc
        (personalDeadlineStep_safe oracle now nt uid (personalKey uid dl h)) rest _
        (personalDeadlineStep_present oracle now nt uid acc dl d h hp hm hdue)
    · exact ih _ dl d h hm2 hp hm hdue

theorem personalScan_present (oracle : String → String → Bool)
    (now : Int) (nt : String) :
    ∀ (us : List (String × List Deadline)) (acc : Acc) (uid : String)
      (arr : List Deadline) (dl : Deadline) (d : Date) (h : Nat),
      (uid, arr) ∈ us → dl ∈ arr → parseDate dl.deadline = some d →
      h ∈ REMINDER_HOURS →
      thresholdDue h (hoursLeft (dateMidnightSecs d) now) = true →
      hasKey (us.foldl (personalUserStep oracle now nt) acc).1
        (personalKey uid dl h) = true := by
  intro us
  induction us with
  | nil => intro acc uid arr dl d h hmem; simp at hmem
  | cons e rest ih =>
    intro acc uid arr dl d h hmem hdl hp hm hdue
    rw [List.foldl_cons]
    rcases List.mem_cons.mp hmem with he | hm2
    · have h1 : hasKey (personalUserStep oracle now nt acc e).1
          (personalKey uid dl h) = true := by
        rw [← he]
        exact personalArr_present oracle now nt uid arr acc dl d h hdl hp hm hdue
      exact foldl_hasKey_mono_acc
        (personalUserStep_safe oracle now nt (personalKey uid dl h)) rest _ h1
    · exact ih _ uid arr dl d h hm2 hdl hp hm hdue

theorem check_personal_present (oracle : String → String → Bool)
    (now : Int) (nt : String) (st : UserState) (uid : String)
    (arr : List Deadline) (dl : Deadline) (d : Date) (h : Nat)
    (hmem : (uid, arr) ∈ st.deadlines) (hdl : dl ∈ arr)
    (hp : parseDate dl.deadline = some d) (hm : h ∈ REMINDER_HOURS)
    (hdue : thresholdDue h (hoursLeft (dateMidnightSecs d) now) = true) :
    hasKey (check_personal_deadlines oracle now nt st).1.sent_reminders
      (personalKey uid dl h) = true :=
  personalScan_present oracle now nt st.deadlines (st.sent_reminders, [])
    uid arr dl d h hmem hdl hp hm hdue

/-! ## A scan over an already-complete ledger does nothing (used for C5) -/

theorem globalDeadlineStep_id (users : List String)
    (oracle : String → String → Bool) (now : Int) (nt : String)
    (L : Ledger) (evs : List Event) (dl : Deadline)
    (H : ∀ d, parseDate dl.deadline = some d → ∀ h ∈ REMINDER_HOURS,
      thresholdDue h (hoursLeft (dateMidnightSecs d) now) = true →
      hasKey L (globalKey dl h) = true) :
    globalDeadlineStep users oracle now nt (L, evs) dl = (L, evs) := by
  cases hp : parseDate dl.deadline with
  | none => simp [globalDeadlineStep, hp]
  | some d =>
    simp only [globalDeadlineStep, hp]
    exact guardedFire_foldl_id _ _ _ nt L evs REMINDER_HOURS
      (fun h hm hc => H d hp h hm hc)

theorem globalScan_id (users : List String)
    (oracle : String → String → Bool) (now : Int) (nt : String)
    (L : Ledger) (evs : List Event) :
    ∀ (ds : List Deadline),
      (∀ dl ∈ ds, ∀ d, parseDate dl.deadline = some d → ∀ h ∈ REMINDER_HOURS,
        thresholdDue h (hoursLeft (dateMidnightSecs d) now) = true →
        hasKey L (globalKey dl h) = true) →
      ds.foldl (globalDeadlineStep users oracle now nt) (L, evs) = (L, evs) := by
  intro ds
  induction ds with
  | nil => intro _; rfl
  | cons a rest ih =>
    intro H
    rw [List.foldl_cons,
      globalDeadlineStep_id users oracle now nt L evs a
        (H a (List.mem_cons_self a rest))]
    exact ih (fun dl hm => H dl (List.mem_cons_of_mem a hm))

theorem check_deadlines_id (users : List String)
    (oracle : String → String → Bool) (now : Int) (nt : String)
    (st : GlobalState)
    (H : ∀ dl ∈ st.deadlines, ∀ d, parseDate dl.deadline = some d →
      ∀ h ∈ REMINDER_HOURS,
      thresholdDue h (hoursLeft (dateMidnightSecs d) now) = true →
      hasKey st.sent_reminders (globalKey dl h) = true) :
    check_deadlines users oracle now nt st = (st, []) := by
  have hfold := globalScan_id users oracle now nt st.sent_reminders []
    st.deadlines H
  simp only [check_deadlines, hfold]

theorem personalDeadlineStep_id (oracle : String → String → Bool) (now : Int)
    (nt : String) (uid : String) (L : Ledger) (evs : List Event) (dl : Deadline)
    (H : ∀ d, parseDate dl.deadline = some d → ∀ h ∈ REMINDER_HOURS,
      thresholdDue h (hoursLeft (dateMidnightSecs d) now) = true →
      hasKey L (personalKey uid dl h) = true) :
    personalDeadlineStep oracle now nt uid (L, evs) dl = (L, evs) := by
  cases hp : parseDate dl.deadline with
  | none => simp [personalDeadlineStep, hp]
  | some d =>
    simp only [personalDeadlineStep, hp]
    exact guardedFire_foldl_id _ _ _ nt L evs REMINDER_HOURS
      (fun h hm hc => H d hp h hm hc)

theorem personalArr_id (oracle : String → String → Bool) (now : Int)
    (nt : String) (uid : String) (L : Ledger) (evs : List Event) :
    ∀ (arr : List Deadline),
      (∀ dl ∈ arr, ∀ d, parseDate dl.deadline = some d → ∀ h ∈ REMINDER_HOURS,
        thresholdDue h (hoursLeft (dateMidnightSecs d) now) = true →
        hasKey L (personalKey uid dl h) = true) →
      arr.foldl (personalDeadlineStep oracle now nt uid) (L, evs) = (L, evs) := by
  intro arr
  induction arr with
  | nil => intro _; rfl
  | cons a rest ih =>
    intro H
    rw [List.foldl_cons,
      personalDeadlineStep_id oracle now nt uid L evs a
        (H a (List.mem_cons_self a rest))]
    exact ih (fun dl hm => H dl (List.mem_cons_of_mem a hm))

theorem personalScan_id (oracle : String → String → Bool) (now : Int)
    (nt : String) (L : Ledger) (evs : List Event) :
    ∀ (us : List (String × List Deadline)),
      (∀ uid arr, (uid, arr) ∈ us → ∀ dl ∈ arr, ∀ d,
        parseDate dl.deadline = some d → ∀ h ∈ REMINDER_HOURS,
        thresholdDue h (hoursLeft (dateMidnightSecs d) now) = true →
        hasKey L (personalKey uid dl h) = true) →
      us.foldl (personalUserStep oracle now nt) (L, evs) = (L, evs) := by
  intro us
  induction us with
  | nil => intro _; rfl
  | cons e rest ih =>
    intro H
    rw [List.foldl_cons]
    have hstep : personalUserStep oracle now nt (L, evs) e = (L, evs) := by
      have := personalArr_id oracle now nt e.1 L evs e.2
        (fun dl hm => H e.1 e.2 (by rw [show (e.1, e.2) = e from rfl]; exact List.mem_cons_self e rest) dl hm)
      exact this
    rw [hstep]
    exact ih (fun uid arr hm => H uid arr (List.mem_cons_of_mem e hm))

theorem check_personal_id (oracle : String → String → Bool) (now : Int)
    (nt : String) (st : UserState)
    (H : ∀ uid arr, (uid, arr) ∈ st.deadlines → ∀ dl ∈ arr, ∀ d,
      parseDate dl.deadline = some d → ∀ h ∈ REMINDER_HOURS,
      thresholdDue h (hoursLeft (dateMidnightSecs d) now) = true →
      hasKey st.sent_reminders (personalKey uid dl h) = true) :
    check_personal_deadlines oracle now nt st = (st, []) := by
  have hfold := personalScan_id oracle now nt st.sent_reminders []
    st.deadlines H
  simp only [check_personal_deadlines, hfold]

/-! ## Send outcomes never influence control flow (used for C7) -/

theorem broadcastSends_strip (uids : List String)
    (oracle : String → String → Bool) (key text : String) :
    (broadcastSends uids oracle key text).map Event.stripOk =
      uids.map (fun uid => Event.send uid key text true) := by
  rw [broadcastSends, List.map_map]
  rfl

theorem foldl_strip_congr {α : Type} (f g : Acc → α → Acc)
    (hstep : ∀ (a b : Acc) (x : α), a.1 = b.1 →
      a.2.map Event.stripOk = b.2.map Event.stripOk →
      (f a x).1 = (g b x).1 ∧
        (f a x).2.map Event.stripOk = (g b x).2.map Event.stripOk) :
    ∀ (xs : List α) (a b : Acc), a.1 = b.1 →
      a.2.map Event.stripOk = b.2.map Event.stripOk →
      (xs.foldl f a).1 = (xs.foldl g b).1 ∧
        (xs.foldl f a).2.map Event.stripOk = (xs.foldl g b).2.map Event.stripOk := by
  intro xs
  induction xs with
  | nil => intro a b h1 h2; exact ⟨h1, h2⟩
  | cons x rest ih =>
    intro a b h1 h2
    rw [List.foldl_cons, List.foldl_cons]
    obtain ⟨g1, g2⟩ := hstep a b x h1 h2
    exact ih _ _ g1 g2

theorem globalHourStep_strip_congr (users : List String)
    (oA oB : String → String → Bool) (nt : String) (dl : Deadline) (hl : ℚ)
    (a b : Acc) (x : Nat) (h1 : a.1 = b.1)
    (h2 : a.2.map Event.stripOk = b.2.map Event.stripOk) :
    (globalHourStep users oA nt dl hl a x).1 = (globalHourStep users oB nt dl hl b x).1 ∧
      (globalHourStep users oA nt dl hl a x).2.map Event.stripOk =
        (globalHourStep users oB nt dl hl b x).2.map Event.stripOk := by
  simp only [globalHourStep]
  by_cases hc : thresholdDue x hl = true
  · simp only [hc, if_true, fireOne, h1]
    by_cases hk : hasKey b.1 (globalKey dl x) = true
    · simp [hk, h1, h2]
    · simp only [Bool.not_eq_true] at hk
      simp only [hk, Bool.false_eq_true, if_false]
      refine ⟨by simp [h1], ?_⟩
      simp only [List.map_append, h2, broadcastSends_strip]
  · simp only [Bool.not_eq_true] at hc
    simp [hc, h1, h2]

theorem globalDeadlineStep_strip_congr (users : List String)
    (oA oB : String → String → Bool) (now : Int) (nt : String)
    (a b : Acc) (dl : Deadline) (h1 : a.1 = b.1)
    (h2 : a.2.map Event.stripOk = b.2.map Event.stripOk) :
    (globalDeadlineStep users oA now nt a dl).1 =
      (globalDeadlineStep users oB now nt b dl).1 ∧
    (globalDeadlineStep users oA now nt a dl).2.map Event.stripOk =
      (globalDeadlineStep users oB now nt b dl).2.map Event.stripOk := by
  cases hp : parseDate dl.deadline with
  | none => simp [globalDeadlineStep, hp, h1, h2]
  | some d =>
    simp only [globalDeadlineStep, hp]
    exact foldl_strip_congr _ _
      (fun a b x g1 g2 => globalHourStep_strip_congr users oA oB nt dl _ a b x g1 g2)
      REMINDER_HOURS a b h1 h2

theorem check_deadlines_oracle_congr (users : List String)
    (oA oB : String → String → Bool) (now : Int) (nt : String)
    (st : GlobalState) :
    (check_deadlines users oA now nt st).1 = (check_deadlines users oB now nt st).1 ∧
      (check_deadlines users oA now nt st).2.map Event.stripOk =
        (check_deadlines users oB now nt st).2.map Event.stripOk := by
  have h := foldl_strip_congr (globalDeadlineStep users oA now nt)
    (globalDeadlineStep users oB now nt)
    (fun a b x g1 g2 => globalDeadlineStep_strip_congr users oA oB now nt a b x g1 g2)
    st.deadlines (st.sent_reminders, []) (st.sent_reminders, []) rfl rfl
  constructor
  · simp only [check_deadlines]
    rw [h.1]
  · simp only [check_deadlines]
    exact h.2

/-! ## Every ledger write closes a dispatch block (used for C7) -/

theorem mark_not_mem_broadcastSends (k : String) (uids : List String)
    (oracle : String → String → Bool) (key text : String) :
    Event.mark k ∉ broadcastSends uids oracle key text := by
  intro hmem
  rw [broadcastSends, List.mem_map] at hmem
  obtain ⟨uid, _, habs⟩ := hmem
  exact Event.noConfusion habs

theorem globalBlocked_nil (users : List String)
    (oracle : String → String → Bool) (D : List Deadline) :
    GlobalBlocked users oracle D [] := by
  intro k hk
  simp at hk

theorem globalBlocked_append_block (users : List String)
    (oracle : String → String → Bool) (D : List Deadline) (evs : List Event)
    (dl : Deadline) (h : Nat) (hdl : dl ∈ D) (hh : h ∈ REMINDER_HOURS)
    (hb : GlobalBlocked users oracle D evs) :
    GlobalBlocked users oracle D
      (evs ++ broadcastSends users oracle (globalKey dl h) (globalMsg dl h) ++
        [Event.mark (globalKey dl h)]) := by
  intro k hk
  rw [List.append_assoc, List.mem_append] at hk
  rcases hk with hold | hnew
  · obtain ⟨dl', h', hdl', hh', hkey, p, q, hdecomp⟩ := hb k hold
    refine ⟨dl', h', hdl', hh', hkey, p,
      q ++ (broadcastSends users oracle (globalKey dl h) (globalMsg dl h) ++
        [Event.mark (globalKey dl h)]), ?_⟩
    rw [hdecomp]
    simp [List.append_assoc]
  · have hkeq : k = globalKey dl h := by
      rw [List.mem_append] at hnew
      rcases hnew with hs | hm
      · exact absurd hs (mark_not_mem_broadcastSends k users oracle _ _)
      · simp at hm
        exact (Event.mark.injEq k _).mp (by rw [hm]) |>.symm ▸ rfl
    refine ⟨dl, h, hdl, hh, hkeq, evs, [], ?_⟩
    rw [hkeq]
    simp [List.append_assoc]

theorem globalHour_foldl_blocked (users : List String)
    (oracle : String → String → Bool) (nt : String) (dl : Deadline) (hl : ℚ)
    (D : List Deadline) (hdl : dl ∈ D) :
    ∀ (hs : List Nat), (∀ h ∈ hs, h ∈ REMINDER_HOURS) →
    ∀ (acc : Acc), GlobalBlocked users oracle D acc.2 →
      GlobalBlocked users oracle D
        ((hs.foldl (globalHourStep users oracle nt dl hl) acc).2) := by
  intro hs
  induction hs with
  | nil => intro _ acc hb; exact hb
  | cons a rest ih =>
    intro Hmem acc hb
    rw [List.foldl_cons]
    refine ih (fun x hx => Hmem x (List.mem_cons_of_mem a hx)) _ ?_
    simp only [globalHourStep]
    by_cases hc : thresholdDue a hl = true
    · simp only [hc, if_true, fireOne]
      by_cases hk : hasKey acc.1 (globalKey dl a) = true
      · simp only [hk, if_true]
        exact hb
      · simp only [Bool.not_eq_true] at hk
        simp only [hk, Bool.false_eq_true, if_false]
        exact globalBlocked_append_block users oracle D acc.2 dl a hdl
          (Hmem a (List.mem_cons_self a rest)) hb
    · simp only [Bool.not_eq_true] at hc
      simp only [hc, Bool.false_eq_true, if_false]
      exact hb

theorem globalScan_blocked (users : List String)
    (oracle : String → String → Bool) (now : Int) (nt : String)
    (D : List Deadline) :
    ∀ (ds : List Deadline), (∀ dl ∈ ds, dl ∈ D) →
    ∀ (acc : Acc), GlobalBlocked users oracle D acc.2 →
      GlobalBlocked users oracle D
        ((ds.foldl (globalDeadlineStep users oracle now nt) acc).2) := by
  intro ds
  induction ds with
  | nil => intro _ acc hb; exact hb
  | cons a rest ih =>
    intro Hmem acc hb
    rw [List.foldl_cons]
    refine ih (fun dl hm => Hmem dl (List.mem_cons_of_mem a hm)) _ ?_
    cases hp : parseDate a.deadline with
    | none => simpa [globalDeadlineStep, hp] using hb
    | some d =>
      simp only [globalDeadlineStep, hp]
      exact globalHour_foldl_blocked users oracle nt a _ D
        (Hmem a (List.mem_cons_self a rest)) REMINDER_HOURS (fun _ hx => hx) acc hb

theorem check_deadlines_blocked (users : List String)
    (oracle : String → String → Bool) (now : Int) (nt : String)
    (st : GlobalState) :
    GlobalBlocked users oracle st.deadlines (check_deadlines users oracle now nt st).2 :=
  globalScan_blocked users oracle now nt st.deadlines st.deadlines
    (fun _ hm => hm) (st.sent_reminders, [])
    (globalBlocked_nil users oracle st.deadlines)

/-! ## A due fresh threshold produces a ledger write (used for C7) -/

theorem check_deadlines_fires (users : List String)
    (oracle : String → String → Bool) (now : Int) (nt : String)
    (st : GlobalState) (dl : Deadline) (d : Date) (h : Nat)
    (hmem : dl ∈ st.deadlines) (hp : parseDate dl.deadline = some d)
    (hm : h ∈ REMINDER_HOURS)
    (hdue : thresholdDue h (hoursLeft (dateMidnightSecs d) now) = true)
    (hfresh : hasKey st.sent_reminders (globalKey dl h) = false) :
    Event.mark (globalKey dl h) ∈ (check_deadlines users oracle now nt st).2 := by
  have hpresent := check_deadlines_present users oracle now nt st dl d h hmem hp hm hdue
  have hg := foldl_growth (globalDeadlineStep_safe users oracle now nt (globalKey dl h))
    st.deadlines st.sent_reminders
  have h0 : countKey st.sent_reminders (globalKey dl h) = 0 :=
    (hasKey_false_iff _ _).mp hfresh
  have h1 : 0 < countKey
      (st.deadlines.foldl (globalDeadlineStep users oracle now nt)
        (st.sent_reminders, [])).1 (globalKey dl h) :=
    (hasKey_true_iff _ _).mp hpresent
  have hcm : 0 < countMarks (globalKey dl h)
      (st.deadlines.foldl (globalDeadlineStep users oracle now nt)
        (st.sent_reminders, [])).2 := by omega
  exact mark_mem_of_countMarks_pos _ _ hcm

theorem check_deadlines_mark_hasKey (users : List String)
    (oracle : String → String → Bool) (now : Int) (nt : String)
    (st : GlobalState) (k : String)
    (hmark : Event.mark k ∈ (check_deadlines users oracle now nt st).2) :
    hasKey (check_deadlines users oracle now nt st).1.sent_reminders k = true := by
  have hpos : 0 < countMarks k
      (st.deadlines.foldl (globalDeadlineStep users oracle now nt)
        (st.sent_reminders, [])).2 :=
    mark_mem_countMarks_pos k _ hmark
  by_cases hk : hasKey st.sent_reminders k = true
  · exfalso
    have hz := countMarks_eq_zero_of_keyEvents_nil k _
      (foldl_frozen (globalDeadlineStep_safe users oracle now nt k)
        st.deadlines st.sent_reminders hk)
    omega
  · simp only [Bool.not_eq_true] at hk
    obtain ⟨hle, heq⟩ := foldl_fresh
      (globalDeadlineStep_safe users oracle now nt k) st.deadlines
      st.sent_reminders hk
    have hone : countMarks k
        (st.deadlines.foldl (globalDeadlineStep users oracle now nt)
          (st.sent_reminders, [])).2 = 1 := by omega
    show hasKey (st.deadlines.foldl (globalDeadlineStep users oracle now nt)
      (st.sent_reminders, [])).1 k = true
    rw [heq, hone]
    simp

/-! ## Corrupted records are skipped (used for C8) -/

theorem globalScan_skip (users : List String)
    (oracle : String → String → Bool) (now : Int) (nt : String)
    (pre post : List Deadline) (bad : Deadline)
    (hbad : parseDate bad.deadline = none) (acc : Acc) :
    (pre ++ bad :: post).foldl (globalDeadlineStep users oracle now nt) acc =
      (pre ++ post).foldl (globalDeadlineStep users oracle now nt) acc := by
  rw [List.foldl_append, List.foldl_append, List.foldl_cons]
  congr 1
  simp [globalDeadlineStep, hbad]

theorem personalArr_skip (oracle : String → String → Bool) (now : Int)
    (nt : String) (uid : String) (pre post : List Deadline) (bad : Deadline)
    (hbad : parseDate bad.deadline = none) (acc : Acc) :
    (pre ++ bad :: post).foldl (personalDeadlineStep oracle now nt uid) acc =
      (pre ++ post).foldl (personalDeadlineStep oracle now nt uid) acc := by
  rw [List.foldl_append, List.foldl_append, List.foldl_cons]
  congr 1
  simp [personalDeadlineStep, hbad]

theorem personalScan_skip (oracle : String → String → Bool) (now : Int)
    (nt : String) (us1 us2 : List (String × List Deadline)) (uid : String)
    (pre post : List Deadline) (bad : Deadline)
    (hbad : parseDate bad.deadline = none) (acc : Acc) :
    (us1 ++ (uid, pre ++ bad :: post) :: us2).foldl
        (personalUserStep oracle now nt) acc =
      (us1 ++ (uid, pre ++ post) :: us2).foldl
        (personalUserStep oracle now nt) acc := by
  rw [List.foldl_append, List.foldl_append, List.foldl_cons, List.foldl_cons]
  congr 1
  show (pre ++ bad :: post).foldl (personalDeadlineStep oracle now nt uid) _ =
    (pre ++ post).foldl (personalDeadlineStep oracle now nt uid) _
  exact personalArr_skip oracle now nt uid pre post bad hbad _

/-! ## Date-format refinement (used for C3) -/

theorem daysInMonth_le31 (y m : Nat) : daysInMonth y m ≤ 31 := by
  unfold daysInMonth
  split
  · split <;> omega
  · split <;> omega

theorem specStrict_parses (s : String) (h : specStrictDDMMYYYY s = true) :
    ∃ dt : Date, parseDate s = some dt := by
  unfold specStrictDDMMYYYY at h
  split at h
  case _ d1 d2 m1 m2 y1 y2 y3 y4 hdata =>
    simp only [Bool.and_eq_true, decide_eq_true_eq] at h
    obtain ⟨⟨⟨⟨⟨⟨⟨⟨hd1, hd2⟩, hm1⟩, hm2⟩, hy1⟩, hy2⟩, hy3⟩, hy4⟩, hval⟩ := h
    obtain ⟨h1d, h1m, h12m, h1y, hdm⟩ := hval
    refine ⟨⟨digitsVal [d1, d2], digitsVal [m1, m2], digitsVal [y1, y2, y3, y4]⟩, ?_⟩
    unfold parseDate
    rw [hdata]
    simp only [parseDateList, takeDigits, hd1, hd2, hm1, hm2, hy1, hy2, hy3, hy4,
      (show isDigit '.' = false by decide), if_true, if_false, Bool.false_eq_true,
      List.length_cons, List.length_nil]
    rw [if_pos (by norm_num)]
    rw [if_pos ⟨h1d, hdm.trans (daysInMonth_le31 _ _), h1m, h12m, h1y, hdm⟩]
  case _ =>
    exact absurd h (by simp)

/-! ## Association-list lemmas (used for C3, C4, C10) -/

theorem alistGet_cons (p : String × List Deadline)
    (rest : List (String × List Deadline)) (uid : String) :
    alistGet (p :: rest) uid = if p.1 == uid then p.2 else alistGet rest uid := by
  rw [alistGet, List.find?_cons]
  by_cases h : (p.1 == uid) = true
  · simp [h]
  · simp only [Bool.not_eq_true] at h
    simp [h, alistGet]

theorem alistGet_nil (uid : String) : alistGet [] uid = [] := rfl

theorem alistHasKey_cons_false (p : String × List Deadline)
    (rest : List (String × List Deadline)) (uid : String)
    (h : alistHasKey (p :: rest) uid = false) :
    (p.1 == uid) = false ∧ alistHasKey rest uid = false := by
  rw [alistHasKey, List.any_cons] at h
  simp only [Bool.or_eq_false_iff] at h
  exact ⟨h.1, h.2⟩

theorem alistGet_of_not_hasKey (uid : String) :
    ∀ (m : List (String × List Deadline)), alistHasKey m uid = false →
      alistGet m uid = [] := by
  intro m
  induction m with
  | nil => intro _; rfl
  | cons p rest ih =>
    intro h
    obtain ⟨h1, h2⟩ := alistHasKey_cons_false p rest uid h
    rw [alistGet_cons, h1]
    simp only [Bool.false_eq_true, if_false]
    exact ih h2

theorem alistGet_set_self (uid : String) (v : List Deadline) :
    ∀ (m : List (String × List Deadline)), alistGet (alistSet m uid v) uid = v := by
  intro m
  induction m with
  | nil => simp [alistSet, alistGet_cons]
  | cons p rest ih =>
    by_cases hp : (p.1 == uid) = true
    · simp [alistSet, hp, alistGet_cons]
    · simp only [Bool.not_eq_true] at hp
      simp only [alistSet, hp, Bool.false_eq_true, if_false]
      rw [alistGet_cons, hp]
      simp only [Bool.false_eq_true, if_false]
      exact ih

theorem alistGet_set_other (uid uid2 : String) (v : List Deadline)
    (hne : uid2 ≠ uid) :
    ∀ (m : List (String × List Deadline)),
      alistGet (alistSet m uid v) uid2 = alistGet m uid2 := by
  intro m
  have huid : (uid == uid2) = false := by
    simp only [beq_eq_false_iff_ne, ne_eq]
    exact fun he => hne he.symm
  induction m with
  | nil =>
    simp only [alistSet]
    rw [alistGet_cons]
    simp [huid]
  | cons p rest ih =>
    by_cases hp : (p.1 == uid) = true
    · have hpuid : p.1 = uid := by simpa using hp
      simp only [alistSet, hp, if_true]
      rw [alistGet_cons, alistGet_cons]
      simp only [hpuid, huid, Bool.false_eq_true, if_false]
    · simp only [Bool.not_eq_true] at hp
      simp only [alistSet, hp, Bool.false_eq_true, if_false]
      rw [alistGet_cons, alistGet_cons, ih]

theorem alistGet_append_singleton_ne (uid uid2 : String) (v : List Deadline)
    (hne : uid ≠ uid2) :
    ∀ (m : List (String × List Deadline)),
      alistGet (m ++ [(uid, v)]) uid2 = alistGet m uid2 := by
  intro m
  have huid : (uid == uid2) = false := by
    simp only [beq_eq_false_iff_ne, ne_eq]
    exact hne
  induction m with
  | nil =>
    rw [List.nil_append, alistGet_cons]
    simp [huid]
  | cons p rest ih =>
    rw [List.cons_append, alistGet_cons, alistGet_cons, ih]

theorem alistGet_append_singleton_self (uid : String) (v : List Deadline) :
    ∀ (m : List (String × List Deadline)), alistHasKey m uid = false →
      alistGet (m ++ [(uid, v)]) uid = v := by
  intro m
  induction m with
  | nil => simp [alistGet_cons]
  | cons p rest ih =>
    intro h
    obtain ⟨h1, h2⟩ := alistHasKey_cons_false p rest uid h
    rw [List.cons_append, alistGet_cons, h1]
    simp only [Bool.false_eq_true, if_false]
    exact ih h2

/-! ## Claim theorems -/

/-- C2: for every deadline midnight and tick time, a threshold `h` in
`[24, 72, 120]` is due exactly when `h >= hours_left > h - 60/3600`; in
particular a tick exactly at `T - 24h` fires the 24h window (inclusive
upper bound), a tick at `T - 24h - 1s` does not, and a tick at
`T - 24h + 1s` does. -/
theorem C2_threshold_window :
    (∀ h : Nat, h ∈ REMINDER_HOURS → ∀ dueMid now : Int,
      (thresholdDue h (hoursLeft dueMid now) = true ↔
        (h : ℚ) ≥ hoursLeft dueMid now ∧
          hoursLeft dueMid now > (h : ℚ) - 60 / 3600)) ∧
    (∀ T : Int, thresholdDue 24 (hoursLeft T (T - 24 * 3600)) = true) ∧
    (∀ T : Int, thresholdDue 24 (hoursLeft T (T - 24 * 3600 - 1)) = false) ∧
    (∀ T : Int, thresholdDue 24 (hoursLeft T (T - 24 * 3600 + 1)) = true) := by
  refine ⟨?_, ?_, ?_, ?_⟩
  · intro h _ dueMid now
    rw [thresholdDue_iff]
  · intro T
    rw [thresholdDue_hoursLeft, decide_eq_true_eq]
    omega
  · intro T
    rw [thresholdDue_hoursLeft, decide_eq_false_iff_not]
    omega
  · intro T
    rw [thresholdDue_hoursLeft, decide_eq_true_eq]
    omega

/-- Witness for C2 at `h = 24`, a deadline one day away. -/
theorem C2_threshold_window_witness :
    (thresholdDue 24 (hoursLeft 86400 0) = true ↔
      (24 : ℚ) ≥ hoursLeft 86400 0 ∧ hoursLeft 86400 0 > (24 : ℚ) - 60 / 3600) ∧
    thresholdDue 24 (hoursLeft 86400 (86400 - 24 * 3600)) = true :=
  ⟨by
    have := C2_threshold_window.1 24 (by decide) 86400 0
    simpa using this,
   C2_threshold_window.2.1 86400⟩

/-- C9: the three windows are pairwise disjoint, so for any value of
`hours_left` at most one of the thresholds `[24, 72, 120]` passes the
window test. -/
theorem C9_windows_disjoint :
    ∀ hl : ℚ,
      (∀ h1 h2 : Nat, h1 ∈ REMINDER_HOURS → h2 ∈ REMINDER_HOURS →
        thresholdDue h1 hl = true → thresholdDue h2 hl = true → h1 = h2) ∧
      REMINDER_HOURS.countP (fun h => thresholdDue h hl) ≤ 1 := by
  intro hl
  have k2472 : ¬(thresholdDue 24 hl = true ∧ thresholdDue 72 hl = true) := by
    rintro ⟨a, b⟩
    rw [thresholdDue_iff] at a b
    obtain ⟨a1, _⟩ := a
    obtain ⟨_, b2⟩ := b
    push_cast at a1 b2
    linarith
  have k24120 : ¬(thresholdDue 24 hl = true ∧ thresholdDue 120 hl = true) := by
    rintro ⟨a, b⟩
    rw [thresholdDue_iff] at a b
    obtain ⟨a1, _⟩ := a
    obtain ⟨_, b2⟩ := b
    push_cast at a1 b2
    linarith
  have k72120 : ¬(thresholdDue 72 hl = true ∧ thresholdDue 120 hl = true) := by
    rintro ⟨a, b⟩
    rw [thresholdDue_iff] at a b
    obtain ⟨a1, _⟩ := a
    obtain ⟨_, b2⟩ := b
    push_cast at a1 b2
    linarith
  constructor
  · intro h1 h2 hm1 hm2 d1 d2
    simp only [REMINDER_HOURS, List.mem_cons, List.mem_singleton,
      List.not_mem_nil, or_false] at hm1 hm2
    rcases hm1 with rfl | rfl | rfl <;> rcases hm2 with rfl | rfl | rfl
    · rfl
    · exact absurd ⟨d1, d2⟩ k2472
    · exact absurd ⟨d1, d2⟩ k24120
    · exact absurd ⟨d2, d1⟩ k2472
    · rfl
    · exact absurd ⟨d1, d2⟩ k72120
    · exact absurd ⟨d2, d1⟩ k24120
    · exact absurd ⟨d2, d1⟩ k72120
    · rfl
  · simp only [REMINDER_HOURS, List.countP_cons, List.countP_nil]
    by_cases b1 : thresholdDue 24 hl = true <;>
      by_cases b2 : thresholdDue 72 hl = true <;>
        by_cases b3 : thresholdDue 120 hl = true
    · exact absurd ⟨b1, b2⟩ k2472
    · exact absurd ⟨b1, b2⟩ k2472
    · exact absurd ⟨b1, b3⟩ k24120
    · simp [b1, b2, b3]
    · exact absurd ⟨b2, b3⟩ k72120
    · simp [b1, b2, b3]
    · simp [b1, b2, b3]
    · simp [b1, b2, b3]

/-- Witness for C9 at `hours_left = 24`. -/
theorem C9_windows_disjoint_witness :
    24 = 24 ∧ REMINDER_HOURS.countP (fun h => thresholdDue h 24) ≤ 1 := by
  have hdue : thresholdDue 24 (24 : ℚ) = true := by
    rw [thresholdDue_iff]
    norm_num
  exact ⟨(C9_windows_disjoint 24).1 24 24 (by decide) (by decide) hdue hdue,
    (C9_windows_disjoint 24).2⟩

/-- C4: `remove_deadline` (shared and personal) with `0 <= i < n` succeeds,
removes exactly the element at position `i` (the result is
`take i ++ drop (i+1)`) and leaves everything else untouched; any `i`
outside `[0, n)`, negative included, fails and leaves the state
unchanged. -/
theorem C4_remove_bounds :
    (∀ (st : GlobalState) (i : Int), 0 ≤ i → i < (st.deadlines.length : Int) →
      (st.remove_deadline i).1 = true ∧
      (st.remove_deadline i).2.deadlines =
        st.deadlines.take i.toNat ++ st.deadlines.drop (i.toNat + 1) ∧
      (st.remove_deadline i).2.sent_reminders = st.sent_reminders) ∧
    (∀ (st : GlobalState) (i : Int),
      i < 0 ∨ (st.deadlines.length : Int) ≤ i →
      st.remove_deadline i = (false, st)) ∧
    (∀ (st : UserState) (uid : String) (i : Int), 0 ≤ i →
      i < ((st.get_user_deadlines uid).length : Int) →
      (st.remove_deadline uid i).1 = true ∧
      (st.remove_deadline uid i).2.get_user_deadlines uid =
        (st.get_user_deadlines uid).take i.toNat ++
          (st.get_user_deadlines uid).drop (i.toNat + 1) ∧
      (∀ uid2, uid2 ≠ uid →
        (st.remove_deadline uid i).2.get_user_deadlines uid2 =
          st.get_user_deadlines uid2) ∧
      (st.remove_deadline uid i).2.sent_reminders = st.sent_reminders) ∧
    (∀ (st : UserState) (uid : String) (i : Int),
      i < 0 ∨ ((st.get_user_deadlines uid).length : Int) ≤ i →
      st.remove_deadline uid i = (false, st)) := by
  refine ⟨?_, ?_, ?_, ?_⟩
  · intro st i h0 hlen
    simp only [GlobalState.remove_deadline]
    rw [if_pos ⟨h0, hlen⟩]
    exact ⟨rfl, by rw [List.eraseIdx_eq_take_drop_succ], rfl⟩
  · intro st i hout
    simp only [GlobalState.remove_deadline]
    rw [if_neg (by omega)]
  · intro st uid i h0 hlen
    simp only [UserState.remove_deadline]
    rw [if_pos ⟨h0, hlen⟩]
    refine ⟨rfl, ?_, ?_, rfl⟩
    · show alistGet (alistSet st.deadlines uid _) uid = _
      rw [alistGet_set_self, List.eraseIdx_eq_take_drop_succ]
      rfl
    · intro uid2 hne
      show alistGet (alistSet st.deadlines uid _) uid2 = _
      rw [alistGet_set_other uid uid2 _ hne]
      rfl
  · intro st uid i hout
    simp only [UserState.get_user_deadlines] at hout
    simp only [UserState.remove_deadline]
    rw [if_neg (by omega)]

/-- Witness for C4: removing index 0 from a one-element store, and index 5
from the same store. -/
theorem C4_remove_bounds_witness :
    ((cGst.remove_deadline 0).1 = true ∧
      (cGst.remove_deadline 0).2.deadlines =
        cGst.deadlines.take (0 : Int).toNat ++
          cGst.deadlines.drop ((0 : Int).toNat + 1) ∧
      (cGst.remove_deadline 0).2.sent_reminders = cGst.sent_reminders) ∧
    cGst.remove_deadline 5 = (false, cGst) ∧
    cPst.remove_deadline "42" 7 = (false, cPst) :=
  ⟨C4_remove_bounds.1 cGst 0 (by decide) (by decide),
   C4_remove_bounds.2.1 cGst 5 (Or.inr (by decide)),
   C4_remove_bounds.2.2.2 cPst "42" 7 (Or.inr (by decide))⟩

/-- C10: failing personal-store operations never touch the mapping: an
`add_deadline` with an unparseable date returns `False` with the state
(and hence its key set) unchanged, and `remove_deadline` for a user with
no stored list returns `False` with the state unchanged. -/
theorem C10_failed_ops_preserve_users :
    (∀ (st : UserState) (uid subject task date_str created_at : String),
      parseDate date_str = none →
      st.add_deadline uid subject task date_str created_at = (false, st)) ∧
    (∀ (st : UserState) (uid : String) (i : Int),
      alistHasKey st.deadlines uid = false →
      st.remove_deadline uid i = (false, st)) ∧
    (∀ (st : UserState) (uid subject task date_str created_at : String),
      parseDate date_str = none →
      (st.add_deadline uid subject task date_str created_at).2.deadlines.map
          Prod.fst = st.deadlines.map Prod.fst) ∧
    (∀ (st : UserState) (uid : String) (i : Int),
      alistHasKey st.deadlines uid = false →
      (st.remove_deadline uid i).2.deadlines.map Prod.fst =
        st.deadlines.map Prod.fst) := by
  have hadd : ∀ (st : UserState) (uid subject task date_str created_at : String),
      parseDate date_str = none →
      st.add_deadline uid subject task date_str created_at = (false, st) := by
    intro st uid subject task date_str created_at hp
    simp only [UserState.add_deadline, hp]
  have hrem : ∀ (st : UserState) (uid : String) (i : Int),
      alistHasKey st.deadlines uid = false →
      st.remove_deadline uid i = (false, st) := by
    intro st uid i h
    have harr : alistGet st.deadlines uid = [] :=
      alistGet_of_not_hasKey uid st.deadlines h
    simp only [UserState.remove_deadline, harr, List.length_nil]
    rw [if_neg (by push_cast; omega)]
  refine ⟨hadd, hrem, ?_, ?_⟩
  · intro st uid subject task date_str created_at hp
    rw [hadd st uid subject task date_str created_at hp]
  · intro st uid i h
    rw [hrem st uid i h]

/-- Witness for C10: an invalid date and an unknown user on a concrete
store. -/
theorem C10_failed_ops_preserve_users_witness :
    cPst.add_deadline "7" "S" "T" "corrupted" "c" = (false, cPst) ∧
    cPst.remove_deadline "43" 0 = (false, cPst) :=
  ⟨C10_failed_ops_preserve_users.1 cPst "7" "S" "T" "corrupted" "c" (by decide),
   C10_failed_ops_preserve_users.2.1 cPst "43" 0 (by decide)⟩

/-- C6: the shared dedup key is `subject_dueDate_h`, the personal key is
`userId_subject_dueDate_h`, the two are always distinct strings, and the
two scopes run on disjoint state: the shared result never depends on the
personal store/ledger and vice versa. -/
theorem C6_key_composition :
    (∀ (dl : Deadline) (h : Nat),
      globalKey dl h = dl.subject ++ "_" ++ dl.deadline ++ "_" ++ toString h) ∧
    (∀ (uid : String) (dl : Deadline) (h : Nat),
      personalKey uid dl h =
        uid ++ "_" ++ dl.subject ++ "_" ++ dl.deadline ++ "_" ++ toString h) ∧
    (∀ (uid : String) (dl : Deadline) (h : Nat),
      personalKey uid dl h ≠ globalKey dl h) ∧
    (∀ (users : List String) (oracle : String → String → Bool) (now : Int)
      (nt : String) (g : GlobalState) (p p2 : UserState),
      (runTick users oracle now nt ⟨g, p⟩).1.global =
        (runTick users oracle now nt ⟨g, p2⟩).1.global) ∧
    (∀ (users : List String) (oracle : String → String → Bool) (now : Int)
      (nt : String) (g g2 : GlobalState) (p : UserState),
      (runTick users oracle now nt ⟨g, p⟩).1.personal =
        (runTick users oracle now nt ⟨g2, p⟩).1.personal) := by
  refine ⟨fun dl h => rfl, fun uid dl h => rfl, ?_, fun _ _ _ _ _ _ _ => rfl,
    fun _ _ _ _ _ _ _ => rfl⟩
  intro uid dl h heq
  have hlen := congrArg String.length heq
  simp only [personalKey, globalKey, String.length_append,
    (show ("_" : String).length = 1 by decide)] at hlen
  omega

/-- Witness for C6: the personal and shared 24h keys of the same concrete
deadline differ. -/
theorem C6_key_composition_witness :
    personalKey "42" cDl 24 ≠ globalKey cDl 24 ∧
    globalKey cDl 24 = cDl.subject ++ "_" ++ cDl.deadline ++ "_" ++ toString 24 :=
  ⟨C6_key_composition.2.2.1 "42" cDl 24, C6_key_composition.1 cDl 24⟩

/-- C3 counterexample: `"1.1.2030"` is not a strict `DD.MM.YYYY` string,
yet both add operations accept it (CPython's `strptime` `%d`/`%m` accept
unpadded one-digit fields), mutating the store — the claim's "wrong format
implies failure and no mutation" is false as stated. -/
theorem C3_counterexample :
    specStrictDDMMYYYY "1.1.2030" = false ∧
    (GlobalState.add_deadline ⟨[], []⟩ "Math" "HW" "1.1.2030" "c").1 = true ∧
    (GlobalState.add_deadline ⟨[], []⟩ "Math" "HW" "1.1.2030" "c").2.deadlines.length = 1 ∧
    (UserState.add_deadline ⟨[], []⟩ "42" "Math" "HW" "1.1.2030" "c").1 = true := by
  decide

/-- C3 (amended): every strict `DD.MM.YYYY` date is accepted and appended
at the end of the corresponding sequence; `add` fails leaving the state
unchanged exactly when the `day.month.year` parse rejects the string
(wrong shape or impossible calendar date); but the parse also accepts
unpadded 1-2 digit day/month fields, so acceptance is not limited to the
strict format. -/
theorem C3_add_amended :
    (∀ (st : GlobalState) (subject task ds ca : String) (d : Date),
      parseDate ds = some d →
      st.add_deadline subject task ds ca =
        (true, { st with deadlines := st.deadlines ++ [⟨subject, task, ds, ca⟩] })) ∧
    (∀ (st : GlobalState) (subject task ds ca : String),
      parseDate ds = none → st.add_deadline subject task ds ca = (false, st)) ∧
    (∀ (st : GlobalState) (subject task ds ca : String),
      specStrictDDMMYYYY ds = true →
      (st.add_deadline subject task ds ca).1 = true ∧
      (st.add_deadline subject task ds ca).2.deadlines =
        st.deadlines ++ [⟨subject, task, ds, ca⟩]) ∧
    (∀ (st : UserState) (uid subject task ds ca : String) (d : Date),
      parseDate ds = some d →
      (st.add_deadline uid subject task ds ca).1 = true ∧
      (st.add_deadline uid subject task ds ca).2.get_user_deadlines uid =
        st.get_user_deadlines uid ++ [⟨subject, task, ds, ca⟩] ∧
      (∀ uid2, uid2 ≠ uid →
        (st.add_deadline uid subject task ds ca).2.get_user_deadlines uid2 =
          st.get_user_deadlines uid2) ∧
      (st.add_deadline uid subject task ds ca).2.sent_reminders =
        st.sent_reminders) ∧
    (∀ (st : UserState) (uid subject task ds ca : String),
      parseDate ds = none →
      st.add_deadline uid subject task ds ca = (false, st)) ∧
    (∀ (st : UserState) (uid subject task ds ca : String),
      specStrictDDMMYYYY ds = true →
      (st.add_deadline uid subject task ds ca).1 = true ∧
      (st.add_deadline uid subject task ds ca).2.get_user_deadlines uid =
        st.get_user_deadlines uid ++ [⟨subject, task, ds, ca⟩]) := by
  have hg : ∀ (st : GlobalState) (subject task ds ca : String) (d : Date),
      parseDate ds = some d →
      st.add_deadline subject task ds ca =
        (true, { st with deadlines := st.deadlines ++ [⟨subject, task, ds, ca⟩] }) := by
    intro st subject task ds ca d hp
    simp only [GlobalState.add_deadline, hp]
  have hp4 : ∀ (st : UserState) (uid subject task ds ca : String) (d : Date),
      parseDate ds = some d →
      (st.add_deadline uid subject task ds ca).1 = true ∧
      (st.add_deadline uid subject task ds ca).2.get_user_deadlines uid =
        st.get_user_deadlines uid ++ [⟨subject, task, ds, ca⟩] ∧
      (∀ uid2, uid2 ≠ uid →
        (st.add_deadline uid subject task ds ca).2.get_user_deadlines uid2 =
          st.get_user_deadlines uid2) ∧
      (st.add_deadline uid subject task ds ca).2.sent_reminders =
        st.sent_reminders := by
    intro st uid subject task ds ca d hp
    simp only [UserState.add_deadline, hp, UserState.get_user_deadlines]
    refine ⟨trivial, ?_, ?_, trivial⟩
    · by_cases hk : alistHasKey st.deadlines uid = true
      · simp only [hk, if_true]
        rw [alistGet_set_self]
      · simp only [Bool.not_eq_true] at hk
        simp only [hk, Bool.false_eq_true, if_false]
        rw [alistGet_set_self, alistGet_append_singleton_self uid [] st.deadlines hk,
          alistGet_of_not_hasKey uid st.deadlines hk]
    · intro uid2 hne
      by_cases hk : alistHasKey st.deadlines uid = true
      · simp only [hk, if_true]
        rw [alistGet_set_other uid uid2 _ hne]
      · simp only [Bool.not_eq_true] at hk
        simp only [hk, Bool.false_eq_true, if_false]
        rw [alistGet_set_other uid uid2 _ hne,
          alistGet_append_singleton_ne uid uid2 [] (fun he => hne he.symm)]
  refine ⟨hg, ?_, ?_, hp4, ?_, ?_⟩
  · intro st subject task ds ca hp
    simp only [GlobalState.add_deadline, hp]
  · intro st subject task ds ca hs
    obtain ⟨d, hp⟩ := specStrict_parses ds hs
    rw [hg st subject task ds ca d hp]
    exact ⟨rfl, rfl⟩
  · intro st uid subject task ds ca hp
    simp only [UserState.add_deadline, hp]
  · intro st uid subject task ds ca hs
    obtain ⟨d, hp⟩ := specStrict_parses ds hs
    obtain ⟨h1, h2, _, _⟩ := hp4 st uid subject task ds ca d hp
    exact ⟨h1, h2⟩

/-- Witness for C3 (amended) on concrete dates: a strict date is appended,
an impossible date is rejected. -/
theorem C3_add_amended_witness :
    ((cGst.add_deadline "S" "T" "01.01.2030" "c").1 = true ∧
      (cGst.add_deadline "S" "T" "01.01.2030" "c").2.deadlines =
        cGst.deadlines ++ [⟨"S", "T", "01.01.2030", "c"⟩]) ∧
    cGst.add_deadline "S" "T" "31.02.2030" "c" = (false, cGst) ∧
    cPst.add_deadline "42" "S" "T" "wrong" "c" = (false, cPst) :=
  ⟨C3_add_amended.2.2.1 cGst "S" "T" "01.01.2030" "c" (by decide),
   C3_add_amended.2.1 cGst "S" "T" "31.02.2030" "c" (by decide),
   C3_add_amended.2.2.2.2.1 cPst "42" "S" "T" "wrong" "c" (by decide)⟩

/-- C1: across any sequence of ticks, at most one ledger write ever happens
for a given reminder key, and once the key is in the persisted ledger no
event (neither a send belonging to that pair nor a further write) is ever
produced for it — in both scopes. -/
theorem C1_at_most_once :
    ∀ (oracle : String → String → Bool) (ticks : List TickInput)
      (gst : GlobalState) (pst : UserState) (k : String),
      (hasKey gst.sent_reminders k = true →
        keyEvents k (runTicksG oracle ticks gst).2 = []) ∧
      countMarks k (runTicksG oracle ticks gst).2 ≤ 1 ∧
      (hasKey pst.sent_reminders k = true →
        keyEvents k (runTicksP oracle ticks pst).2 = []) ∧
      countMarks k (runTicksP oracle ticks pst).2 ≤ 1 := by
  intro oracle ticks gst pst k
  have hG := tickStepG_safe gst.deadlines oracle k
  have hP := tickStepP_safe pst.deadlines oracle k
  refine ⟨?_, ?_, ?_, ?_⟩
  · intro hk
    rw [runTicksG_eq]
    exact foldl_frozen hG ticks gst.sent_reminders hk
  · rw [runTicksG_eq]
    show countMarks k
      (ticks.foldl (tickStepG gst.deadlines oracle) (gst.sent_reminders, [])).2 ≤ 1
    by_cases hk : hasKey gst.sent_reminders k = true
    · rw [countMarks_eq_zero_of_keyEvents_nil k _
        (foldl_frozen hG ticks gst.sent_reminders hk)]
      omega
    · simp only [Bool.not_eq_true] at hk
      exact (foldl_fresh hG ticks gst.sent_reminders hk).1
  · intro hk
    rw [runTicksP_eq]
    exact foldl_frozen hP ticks pst.sent_reminders hk
  · rw [runTicksP_eq]
    show countMarks k
      (ticks.foldl (tickStepP pst.deadlines oracle) (pst.sent_reminders, [])).2 ≤ 1
    by_cases hk : hasKey pst.sent_reminders k = true
    · rw [countMarks_eq_zero_of_keyEvents_nil k _
        (foldl_frozen hP ticks pst.sent_reminders hk)]
      omega
    · simp only [Bool.not_eq_true] at hk
      exact (foldl_fresh hP ticks pst.sent_reminders hk).1

/-- Witness for C1 on concrete one-tick runs whose ledgers already hold the
24h keys. -/
theorem C1_at_most_once_witness :
    keyEvents "Math_01.01.2030_24" (runTicksG cOracle [cTick] cGstSent).2 = [] ∧
    countMarks "Math_01.01.2030_24" (runTicksG cOracle [cTick] cGstSent).2 ≤ 1 ∧
    keyEvents "42_Math_01.01.2030_24" (runTicksP cOracle [cTick] cPstSent).2 = [] ∧
    countMarks "42_Math_01.01.2030_24" (runTicksP cOracle [cTick] cPstSent).2 ≤ 1 :=
  ⟨(C1_at_most_once cOracle [cTick] cGstSent cPstSent "Math_01.01.2030_24").1
      (by decide),
   (C1_at_most_once cOracle [cTick] cGstSent cPstSent "Math_01.01.2030_24").2.1,
   (C1_at_most_once cOracle [cTick] cGstSent cPstSent "42_Math_01.01.2030_24").2.2.1
      (by decide),
   (C1_at_most_once cOracle [cTick] cGstSent cPstSent "42_Math_01.01.2030_24").2.2.2⟩

/-- C5: running a check twice at the same `now` with no intervening state
change dispatches nothing the second time: after the first run every due
(deadline, threshold) pair has its key in the ledger, so the second run
returns the state unchanged with an empty trace — for both scopes, whatever
audience or send outcomes the second run sees. -/
theorem C5_tick_idempotent :
    ∀ (users : List String) (oracle : String → String → Bool) (now : Int)
      (nt : String) (st : GlobalState) (users2 : List String)
      (oracle2 : String → String → Bool) (nt2 : String) (pst : UserState),
      (∀ dl ∈ st.deadlines, ∀ d, parseDate dl.deadline = some d →
        ∀ h ∈ REMINDER_HOURS,
        thresholdDue h (hoursLeft (dateMidnightSecs d) now) = true →
        hasKey (check_deadlines users oracle now nt st).1.sent_reminders
          (globalKey dl h) = true) ∧
      check_deadlines users2 oracle2 now nt2
          (check_deadlines users oracle now nt st).1 =
        ((check_deadlines users oracle now nt st).1, []) ∧
      (∀ uid arr, (uid, arr) ∈ pst.deadlines → ∀ dl ∈ arr, ∀ d,
        parseDate dl.deadline = some d → ∀ h ∈ REMINDER_HOURS,
        thresholdDue h (hoursLeft (dateMidnightSecs d) now) = true →
        hasKey (check_personal_deadlines oracle now nt pst).1.sent_reminders
          (personalKey uid dl h) = true) ∧
      check_personal_deadlines oracle2 now nt2
          (check_personal_deadlines oracle now nt pst).1 =
        ((check_personal_deadlines oracle now nt pst).1, []) := by
  intro users oracle now nt st users2 oracle2 nt2 pst
  refine ⟨?_, ?_, ?_, ?_⟩
  · intro dl hm d hp h hh hdue
    exact check_deadlines_present users oracle now nt st dl d h hm hp hh hdue
  · apply check_deadlines_id
    intro dl hm d hp h hh hdue
    have hm' : dl ∈ st.deadlines := by
      rwa [check_deadlines_deadlines] at hm
    exact check_deadlines_present users oracle now nt st dl d h hm' hp hh hdue
  · intro uid arr hm dl hdl d hp h hh hdue
    exact check_personal_present oracle now nt pst uid arr dl d h hm hdl hp hh hdue
  · apply check_personal_id
    intro uid arr hm dl hdl d hp h hh hdue
    have hm' : (uid, arr) ∈ pst.deadlines := by
      rwa [check_personal_deadlines_deadlines] at hm
    exact check_personal_present oracle now nt pst uid arr dl d h hm' hdl hp hh hdue

/-- Witness for C5 on the concrete one-deadline stores at the 24h boundary
tick. -/
theorem C5_tick_idempotent_witness :
    hasKey (check_deadlines ["u1"] cOracle (cMid - 86400) "t" cGst).1.sent_reminders
      (globalKey cDl 24) = true ∧
    check_deadlines ["u2"] cOracleFail (cMid - 86400) "t2"
        (check_deadlines ["u1"] cOracle (cMid - 86400) "t" cGst).1 =
      ((check_deadlines ["u1"] cOracle (cMid - 86400) "t" cGst).1, []) ∧
    check_personal_deadlines cOracleFail (cMid - 86400) "t2"
        (check_personal_deadlines cOracle (cMid - 86400) "t" cPst).1 =
      ((check_personal_deadlines cOracle (cMid - 86400) "t" cPst).1, []) := by
  have hc := C5_tick_idempotent ["u1"] cOracle (cMid - 86400) "t" cGst
    ["u2"] cOracleFail "t2" cPst
  refine ⟨?_, hc.2.1, hc.2.2.2⟩
  exact hc.1 cDl (by decide) ⟨1, 1, 2030⟩ (by decide) 24 (by decide)
    (by rw [thresholdDue_hoursLeft]; decide)

/-- C7: during a shared-deadline broadcast, per-recipient send outcomes
never change the ledger or which sends are attempted in which order; a due
threshold with a fresh key always produces a ledger write, this write closes
a contiguous block consisting of one send attempt per registered user
followed by the write, and the key is in the ledger afterwards — even when
every send fails. -/
theorem C7_dispatch_then_mark :
    (∀ (users : List String) (oA oB : String → String → Bool) (now : Int)
      (nt : String) (st : GlobalState),
      (check_deadlines users oA now nt st).1 = (check_deadlines users oB now nt st).1 ∧
      (check_deadlines users oA now nt st).2.map Event.stripOk =
        (check_deadlines users oB now nt st).2.map Event.stripOk) ∧
    (∀ (users : List String) (oracle : String → String → Bool) (now : Int)
      (nt : String) (st : GlobalState) (dl : Deadline) (d : Date) (h : Nat),
      dl ∈ st.deadlines → parseDate dl.deadline = some d → h ∈ REMINDER_HOURS →
      thresholdDue h (hoursLeft (dateMidnightSecs d) now) = true →
      hasKey st.sent_reminders (globalKey dl h) = false →
      Event.mark (globalKey dl h) ∈ (check_deadlines users oracle now nt st).2) ∧
    (∀ (users : List String) (oracle : String → String → Bool) (now : Int)
      (nt : String) (st : GlobalState) (k : String),
      Event.mark k ∈ (check_deadlines users oracle now nt st).2 →
      (∃ dl h, dl ∈ st.deadlines ∧ h ∈ REMINDER_HOURS ∧ k = globalKey dl h ∧
        ∃ p q, (check_deadlines users oracle now nt st).2 =
          p ++ (broadcastSends users oracle k (globalMsg dl h) ++ [Event.mark k]) ++ q) ∧
      hasKey (check_deadlines users oracle now nt st).1.sent_reminders k = true) := by
  refine ⟨?_, ?_, ?_⟩
  · intro users oA oB now nt st
    exact check_deadlines_oracle_congr users oA oB now nt st
  · intro users oracle now nt st dl d h hm hp hh hdue hfresh
    exact check_deadlines_fires users oracle now nt st dl d h hm hp hh hdue hfresh
  · intro users oracle now nt st k hmark
    refine ⟨?_, check_deadlines_mark_hasKey users oracle now nt st k hmark⟩
    exact check_deadlines_blocked users oracle now nt st k hmark

/-- Witness for C7: with an all-failing transport the 24h write still
happens and the ledger still receives the key. -/
theorem C7_dispatch_then_mark_witness :
    Event.mark (globalKey cDl 24) ∈
      (check_deadlines ["u1"] cOracleFail (cMid - 86400) "t" cGst).2 ∧
    hasKey (check_deadlines ["u1"] cOracleFail (cMid - 86400) "t" cGst).1.sent_reminders
      (globalKey cDl 24) = true ∧
    (check_deadlines ["u1"] cOracle (cMid - 86400) "t" cGst).2.map Event.stripOk =
      (check_deadlines ["u1"] cOracleFail (cMid - 86400) "t" cGst).2.map Event.stripOk := by
  have hmark := C7_dispatch_then_mark.2.1 ["u1"] cOracleFail (cMid - 86400) "t"
    cGst cDl ⟨1, 1, 2030⟩ 24 (by decide) (by decide) (by decide)
    (by rw [thresholdDue_hoursLeft]; decide) (by decide)
  exact ⟨hmark,
    (C7_dispatch_then_mark.2.2 ["u1"] cOracleFail (cMid - 86400) "t" cGst
      (globalKey cDl 24) hmark).2,
    (C7_dispatch_then_mark.1 ["u1"] cOracle cOracleFail (cMid - 86400) "t" cGst).2⟩

/-- C8: a stored record whose date does not parse is skipped: the scan's
ledger and trace are the same as if the record were absent, the remaining
records are still evaluated, and the store itself (including the corrupted
record) is never modified — in both scopes. -/
theorem C8_corrupted_record_skipped :
    (∀ (users : List String) (oracle : String → String → Bool) (now : Int)
      (nt : String) (L : Ledger) (pre post : List Deadline) (bad : Deadline),
      parseDate bad.deadline = none →
      (check_deadlines users oracle now nt ⟨pre ++ bad :: post, L⟩).1.deadlines =
        pre ++ bad :: post ∧
      (check_deadlines users oracle now nt ⟨pre ++ bad :: post, L⟩).1.sent_reminders =
        (check_deadlines users oracle now nt ⟨pre ++ post, L⟩).1.sent_reminders ∧
      (check_deadlines users oracle now nt ⟨pre ++ bad :: post, L⟩).2 =
        (check_deadlines users oracle now nt ⟨pre ++ post, L⟩).2) ∧
    (∀ (oracle : String → String → Bool) (now : Int) (nt : String) (L : Ledger)
      (us1 us2 : List (String × List Deadline)) (uid : String)
      (pre post : List Deadline) (bad : Deadline),
      parseDate bad.deadline = none →
      (check_personal_deadlines oracle now nt
          ⟨us1 ++ (uid, pre ++ bad :: post) :: us2, L⟩).1.deadlines =
        us1 ++ (uid, pre ++ bad :: post) :: us2 ∧
      (check_personal_deadlines oracle now nt
          ⟨us1 ++ (uid, pre ++ bad :: post) :: us2, L⟩).1.sent_reminders =
        (check_personal_deadlines oracle now nt
          ⟨us1 ++ (uid, pre ++ post) :: us2, L⟩).1.sent_reminders ∧
      (check_personal_deadlines oracle now nt
          ⟨us1 ++ (uid, pre ++ bad :: post) :: us2, L⟩).2 =
        (check_personal_deadlines oracle now nt
          ⟨us1 ++ (uid, pre ++ post) :: us2, L⟩).2) := by
  constructor
  · intro users oracle now nt L pre post bad hbad
    have hf := globalScan_skip users oracle now nt pre post bad hbad (L, [])
    refine ⟨rfl, ?_, ?_⟩
    · show ((pre ++ bad :: post).foldl (globalDeadlineStep users oracle now nt) (L, [])).1 =
        ((pre ++ post).foldl (globalDeadlineStep users oracle now nt) (L, [])).1
      rw [hf]
    · show ((pre ++ bad :: post).foldl (globalDeadlineStep users oracle now nt) (L, [])).2 =
        ((pre ++ post).foldl (globalDeadlineStep users oracle now nt) (L, [])).2
      rw [hf]
  · intro oracle now nt L us1 us2 uid pre post bad hbad
    have hf := personalScan_skip oracle now nt us1 us2 uid pre post bad hbad (L, [])
    refine ⟨rfl, ?_, ?_⟩
    · show ((us1 ++ (uid, pre ++ bad :: post) :: us2).foldl
          (personalUserStep oracle now nt) (L, [])).1 =
        ((us1 ++ (uid, pre ++ post) :: us2).foldl
          (personalUserStep oracle now nt) (L, [])).1
      rw [hf]
    · show ((us1 ++ (uid, pre ++ bad :: post) :: us2).foldl
          (personalUserStep oracle now nt) (L, [])).2 =
        ((us1 ++ (uid, pre ++ post) :: us2).foldl
          (personalUserStep oracle now nt) (L, [])).2
      rw [hf]

/-- Witness for C8: a concrete corrupted record ahead of a healthy one. -/
theorem C8_corrupted_record_skipped_witness :
    (check_deadlines ["u1"] cOracle 0 "t" ⟨[] ++ cBad :: [cDl], []⟩).1.deadlines =
      [] ++ cBad :: [cDl] ∧
    (check_deadlines ["u1"] cOracle 0 "t" ⟨[] ++ cBad :: [cDl], []⟩).2 =
      (check_deadlines ["u1"] cOracle 0 "t" ⟨[] ++ [cDl], []⟩).2 ∧
    (check_personal_deadlines cOracle 0 "t"
        ⟨[] ++ ("42", [] ++ cBad :: [cDl]) :: [], []⟩).2 =
      (check_personal_deadlines cOracle 0 "t"
        ⟨[] ++ ("42", [] ++ [cDl]) :: [], []⟩).2 :=
  ⟨(C8_corrupted_record_skipped.1 ["u1"] cOracle 0 "t" [] [] [cDl] cBad
      (by decide)).1,
   (C8_corrupted_record_skipped.1 ["u1"] cOracle 0 "t" [] [] [cDl] cBad
      (by decide)).2.2,
   (C8_corrupted_record_skipped.2 cOracle 0 "t" [] [] [] "42" [] [cDl] cBad
      (by decide)).2.2⟩

end StudentBotSpec
